import Mathlib

/-!
# Verification of the tuna provider-routing and plan-execution core

A shallow embedding of the Go sources of `octomation/tuna`:

* `internal/response/metadata.go` — round-trippable metadata front matter
  (`Format`, `ParseContent`, `formatDuration`, token encoding);
* `internal/config` — `ParseRateLimit`, `Config.Validate`, providers;
* `internal/llm/router.go` — `Router`, `resolveAlias`, `resolveProvider`,
  `ResolveModel`, `NewRouter`;
* `internal/exec` — `ModelHash` (SHA-256 fingerprint), `ResponseWriter.Write`,
  `Executor.Execute`.

Modelling conventions, used throughout:

* Go `string` is Lean `String`; scanning functions work on `List Char`
  (`String.data`).  Go byte strings are handled through an explicit UTF-8
  encoder where byte-level processing happens (SHA-256).
* Go `int`/`int64` is `Int`; `time.Duration` is an `Int` of nanoseconds;
  `time.Time` is an abstract instant modelled as a `Nat` (`0` = the zero
  time, matching `Time.IsZero`), serialized through an injective decimal
  encoding standing in for RFC 3339.
* Fallible Go functions return `Except String α` with the error text
  modelled after the Go message.
* The file system is a pure store `String → Option String`; callbacks are
  modelled by collecting the emitted events in a list.
* The YAML layer (`gopkg.in/yaml.v3`) is embedded concretely for the
  mapping shape produced by `Metadata.MarshalYAML`: one `key: value` line
  per present field, values emitted verbatim.  This coincides with the
  real library on plain scalars (values without newlines, `": "`, or
  special tokens such as `null`); theorem hypotheses restrict string
  fields to that domain where the claim needs the YAML layer to be exact.
-/

namespace Tuna

/-! ## Decimal encoding (models Go `fmt` `%d` and `strconv.Atoi`) -/

/-- One decimal digit to its character. -/
def digitToChar : Nat → Char
  | 0 => '0' | 1 => '1' | 2 => '2' | 3 => '3' | 4 => '4'
  | 5 => '5' | 6 => '6' | 7 => '7' | 8 => '8' | _ => '9'

/-- Numeric value of a decimal digit character. -/
def charVal (c : Char) : Nat := c.toNat - 48

/-- Decimal digits of `n`, most significant first, by fuel-bounded
structural recursion (`fuel ≥ n` suffices). -/
def natToDecAux : Nat → Nat → List Char
  | 0, _ => []
  | fuel + 1, n => if n = 0 then [] else natToDecAux fuel (n / 10) ++ [digitToChar (n % 10)]

/-- Model of Go `fmt` `%d` on a non-negative integer. -/
def natToDec (n : Nat) : List Char :=
  if n = 0 then ['0'] else natToDecAux n n

/-- Model of Go `fmt` `%d` on an `int`. -/
def intToDec (i : Int) : List Char :=
  if i < 0 then '-' :: natToDec i.natAbs else natToDec i.natAbs

/-- Horner evaluation of a digit-character string. -/
def parseDigits (cs : List Char) : Nat := cs.foldl (fun a c => 10 * a + charVal c) 0

/-- All characters are decimal digits. -/
def allDigits (cs : List Char) : Bool := cs.all (·.isDigit)

/-- Digits-only numeral parser: `none` on an empty or non-numeric string. -/
def decToNat? (cs : List Char) : Option Nat :=
  if cs ≠ [] ∧ allDigits cs then some (parseDigits cs) else none

def int64Max : Nat := 9223372036854775807

/-- The unsigned core of `strconv.Atoi` with the 64-bit range check
(`ErrRange` becomes `none`). -/
def atoiCore (cs : List Char) (bound : Nat) : Option Int :=
  match decToNat? cs with
  | some n => if n ≤ bound then some (n : Int) else none
  | none => none

/-- Model of `strconv.Atoi`: optional sign, decimal digits, and the 64-bit
range check. -/
def atoi? (cs : List Char) : Option Int :=
  match cs with
  | [] => none
  | c :: rest =>
    if c = '-' then (atoiCore rest (int64Max + 1)).map (fun n => -n)
    else if c = '+' then atoiCore rest int64Max
    else atoiCore (c :: rest) int64Max

/-! ## Durations (`formatDuration`, a fragment of `time.ParseDuration`) -/

/-- Model of `time.Duration.Milliseconds`: division truncating toward zero. -/
def durMs (d : Int) : Int := Int.tdiv d 1000000

/-- Two-digit zero-padded decimal (the fraction part of `%.2f`). -/
def pad2 (n : Nat) : List Char := if n < 10 then '0' :: natToDec n else natToDec n

/-- `internal/response/metadata.go` `formatDuration`: `"<ms>ms"` below one
second, else seconds with two decimals.  The Go code renders the seconds
via `float64` and `%.2f`; that is modelled by exact decimal rounding
(half away from zero), which agrees with the float path whenever the
millisecond count is a multiple of 10 — the only case exercised by the
theorems below. -/
def formatDuration (d : Int) : List Char :=
  let ms := durMs d
  if ms < 1000 then intToDec ms ++ ['m', 's']
  else
    let centi := (ms.toNat + 5) / 10
    natToDec (centi / 100) ++ '.' :: (pad2 (centi % 100) ++ ['s'])

/-- Nanoseconds per duration unit (`time.ParseDuration` unit table). -/
def durUnit? (cs : List Char) : Option Int :=
  match cs with
  | ['n', 's'] => some 1
  | ['u', 's'] => some 1000
  | ['m', 's'] => some 1000000
  | ['s'] => some 1000000000
  | ['m'] => some 60000000000
  | ['h'] => some 3600000000000
  | _ => none

/-- Model of `time.ParseDuration` restricted to a single unsigned component
(`"<int>[.<frac>]<unit>"` and the special `"0"`), the sublanguage produced
by `formatDuration`.  Multi-component and signed durations, which the Go
function also accepts but the repository never emits, are rejected. -/
def parseGoDuration (cs : List Char) : Except String Int :=
  if cs = ['0'] then .ok 0
  else
    let intPart := cs.takeWhile Char.isDigit
    let rest := cs.dropWhile Char.isDigit
    if intPart = [] then .error "time: invalid duration"
    else
      if rest.take 1 = ['.'] then
        let rest2 := rest.drop 1
        let frac := rest2.takeWhile Char.isDigit
        let rest3 := rest2.dropWhile Char.isDigit
        match durUnit? rest3 with
        | some u => .ok ((parseDigits intPart : Int) * u +
            ((parseDigits frac : Int) * u) / ((10 ^ frac.length : Nat) : Int))
        | none => .error "time: unknown unit"
      else
        match durUnit? rest with
        | some u => .ok ((parseDigits intPart : Int) * u)
        | none => .error "time: unknown unit"

/-! ## Response metadata (`internal/response/metadata.go`) -/

/-- `response.Metadata`.  `duration` is in nanoseconds; `executedAt` and
`ratedAt` are abstract instants (`0` = Go's zero `time.Time`). -/
structure Metadata where
  provider : String := ""
  model : String := ""
  duration : Int := 0
  input : Int := 0
  output : Int := 0
  executedAt : Nat := 0
  rating : Option String := none
  ratedAt : Option Nat := none
deriving DecidableEq, Repr

/-- `Metadata.IsEmpty`: no meaningful values (note: `ratedAt` is not
inspected, faithfully to the Go code). -/
def Metadata.IsEmpty (m : Metadata) : Bool :=
  m.provider == "" && m.model == "" && m.duration == 0 && m.input == 0 &&
  m.output == 0 && m.executedAt == 0 && m.rating == none

/-- `Metadata.HasExecutionMetadata`. -/
def Metadata.HasExecutionMetadata (m : Metadata) : Bool :=
  m.provider != "" || m.model != "" || m.duration > 0 ||
  m.input > 0 || m.output > 0 || m.executedAt != 0

/-- The intermediate `metadataYAML` struct used by the custom
marshal/unmarshal code. -/
structure MetadataYAML where
  provider : String := ""
  model : String := ""
  duration : String := ""
  input : String := ""
  output : String := ""
  executedAt : Option String := none
  rating : Option String := none
  ratedAt : Option String := none
deriving DecidableEq, Repr

/-- The injective stand-in for the RFC 3339 serialization of an instant. -/
def timeEncode (n : Nat) : List Char := natToDec n

/-- Parsing an encoded instant; failure models a malformed timestamp. -/
def timeDecode (cs : List Char) : Except String Nat :=
  match decToNat? cs with
  | some n => .ok n
  | none => .error "yaml: cannot unmarshal timestamp"

/-- `parseTokens`: strips a trailing `t` and runs `Atoi`, swallowing the
error (`0` on failure), exactly like the Go helper. -/
def trimSuffixT (cs : List Char) : List Char :=
  match cs.reverse with
  | [] => cs
  | c :: r => if c = 't' then r.reverse else cs

/-- `parseTokens` from the source: `"1250t"` to `1250`, `0` on bad input. -/
def parseTokens (cs : List Char) : Int := (atoi? (trimSuffixT cs)).getD 0

/-- One `key: value` line of the YAML mapping. -/
def kvLine (key v : List Char) : List Char := key ++ ':' :: ' ' :: v

/-- A line is present only when the marshaller's condition holds
(`omitempty` plus the explicit `> 0` / `IsZero` guards). -/
def optLine (present : Bool) (key v : List Char) : List (List Char) :=
  if present then [kvLine key v] else []

/-- A nullable scalar: `null` for Go `nil` pointers. -/
def nullable (v : Option (List Char)) : List Char :=
  match v with
  | none => ['n', 'u', 'l', 'l']
  | some s => s

/-- The lines emitted by `Metadata.MarshalYAML` followed by `yaml.Marshal`,
in struct order: the optional execution fields, then the always-present
`rating` and `rated_at`. -/
def yamlLines (m : Metadata) : List (List Char) :=
  optLine (m.provider != "") "provider".data m.provider.data ++
  optLine (m.model != "") "model".data m.model.data ++
  optLine (m.duration > 0) "duration".data (formatDuration m.duration) ++
  optLine (m.input > 0) "input".data (intToDec m.input ++ ['t']) ++
  optLine (m.output > 0) "output".data (intToDec m.output ++ ['t']) ++
  optLine (m.executedAt != 0) "executed_at".data (timeEncode m.executedAt) ++
  [kvLine "rating".data (nullable (m.rating.map String.data)),
   kvLine "rated_at".data (nullable (m.ratedAt.map timeEncode))]

/-- Each line terminated by a newline (the raw `yaml.Marshal` output). -/
def linesText (ls : List (List Char)) : List Char := (ls.map (· ++ ['\n'])).flatten

/-- The document produced by `yaml.Marshal(meta)`. -/
def yamlMarshal (m : Metadata) : List Char := linesText (yamlLines m)

/-- `strings.TrimLeft(s, "\n")`. -/
def trimLeftNL (s : List Char) : List Char := s.dropWhile (· = '\n')

/-- `response.Format`: empty or nil metadata emits the content with leading
newlines trimmed; otherwise a `---` front-matter block followed by a blank
line and the trimmed content.  (The Go error return is always `nil` for
this struct, so the result is total.) -/
def Format (meta : Option Metadata) (content : String) : String :=
  match meta with
  | none => ⟨trimLeftNL content.data⟩
  | some m =>
    if m.IsEmpty then ⟨trimLeftNL content.data⟩
    else ⟨"---\n".data ++ yamlMarshal m ++ "---\n\n".data ++ trimLeftNL content.data⟩

/-- The five-character separator `"\n---\n"` searched for by the lazy group
of `frontMatterRegex`. -/
def markerL : List Char := ['\n', '-', '-', '-', '\n']

/-- Scan for the first occurrence of `markerL`; returns the text before it
and the text after it. -/
def findSplit : List Char → Option (List Char × List Char)
  | [] => none
  | c :: rest =>
    if (c :: rest).take 5 = markerL then some ([], (c :: rest).drop 5)
    else (findSplit rest).map (fun p => (c :: p.1, p.2))

/-- `frontMatterRegex` = `(?s)^---\n(.+?)\n---\n`: an anchored `---` line, a
non-empty lazily-matched group, and a closing `---` line.  Returns the
group and the remainder after the full match. -/
def frontMatterSplit (l : List Char) : Option (List Char × List Char) :=
  if l.take 4 = "---\n".data then
    match l.drop 4 with
    | [] => none
    | c :: rest => (findSplit rest).map (fun p => (c :: p.1, p.2))
  else none

/-- `strings.SplitN`-style split of the document into lines (the YAML layer
reads the mapping line by line). -/
def splitNL : List Char → List (List Char)
  | [] => [[]]
  | c :: rest =>
    if c = '\n' then [] :: splitNL rest
    else
      match splitNL rest with
      | [] => [[c]]
      | l :: ls => (c :: l) :: ls

/-- Split one mapping line at the first `": "` into key and value. -/
def splitKV : List Char → Option (List Char × List Char)
  | [] => none
  | c :: rest =>
    if c = ':' ∧ rest.take 1 = [' '] then some ([], rest.drop 1)
    else (splitKV rest).map (fun p => (c :: p.1, p.2))

/-- Assign a decoded scalar to the `metadataYAML` field named by the key;
unknown keys are ignored, `null` decodes to Go `nil`. -/
def applyKV (aux : MetadataYAML) (k v : List Char) : MetadataYAML :=
  if k = "provider".data then { aux with provider := ⟨v⟩ }
  else if k = "model".data then { aux with model := ⟨v⟩ }
  else if k = "duration".data then { aux with duration := ⟨v⟩ }
  else if k = "input".data then { aux with input := ⟨v⟩ }
  else if k = "output".data then { aux with output := ⟨v⟩ }
  else if k = "executed_at".data then
    { aux with executedAt := if v = "null".data then none else some ⟨v⟩ }
  else if k = "rating".data then
    { aux with rating := if v = "null".data then none else some ⟨v⟩ }
  else if k = "rated_at".data then
    { aux with ratedAt := if v = "null".data then none else some ⟨v⟩ }
  else aux

/-- Decode one line into the accumulating struct; a line that is not a
`key: value` mapping entry is a YAML error. -/
def decodeLine (aux : MetadataYAML) (line : List Char) : Except String MetadataYAML :=
  match splitKV line with
  | none => .error "yaml: could not find expected key"
  | some (k, v) => if k = [] then .error "yaml: did not find expected key" else .ok (applyKV aux k v)

/-- Decode the mapping lines in order. -/
def decodeLines (lines : List (List Char)) : Except String MetadataYAML :=
  lines.foldlM decodeLine {}

/-- The duration field decode: empty means absent (`0`), otherwise
`time.ParseDuration` with its error propagated. -/
def decodeDur (s : String) : Except String Int :=
  if s = "" then .ok 0 else parseGoDuration s.data

/-- An optional timestamp decode into an instant (`none` = zero time). -/
def decodeTime? (o : Option String) : Except String Nat :=
  match o with
  | none => .ok 0
  | some s => timeDecode s.data

/-- An optional timestamp decode into an optional instant. -/
def decodeTimeOpt (o : Option String) : Except String (Option Nat) :=
  match o with
  | none => .ok none
  | some s => (timeDecode s.data).map some

/-- `Metadata.UnmarshalYAML`: decode into `metadataYAML`, then parse the
duration (propagating its error), the timestamps, and the token counts. -/
def finalizeMeta (aux : MetadataYAML) : Except String Metadata :=
  match decodeDur aux.duration with
  | .error e => .error e
  | .ok dur =>
    match decodeTime? aux.executedAt with
    | .error e => .error e
    | .ok ex =>
      match decodeTimeOpt aux.ratedAt with
      | .error e => .error e
      | .ok ra =>
        .ok { provider := aux.provider, model := aux.model, duration := dur,
              input := parseTokens aux.input.data, output := parseTokens aux.output.data,
              executedAt := ex, rating := aux.rating, ratedAt := ra }

/-- `yaml.Unmarshal` of a front-matter block into a `Metadata`. -/
def yamlUnmarshal (y : List Char) : Except String Metadata :=
  match decodeLines (splitNL y) with
  | .error e => .error e
  | .ok aux => finalizeMeta aux

/-- `response.ParseContent`: if the file starts with a front-matter block,
unmarshal it — on YAML failure degrade to empty metadata and the *verbatim*
content; otherwise return the content with leading newlines trimmed.
The Go function never returns a non-nil error. -/
def ParseContent (data : String) : Except String (Metadata × String) :=
  match frontMatterSplit data.data with
  | none => .ok ({}, ⟨trimLeftNL data.data⟩)
  | some (y, rest) =>
    match yamlUnmarshal y with
    | .error _ => .ok ({}, data)
    | .ok m => .ok (m, ⟨trimLeftNL rest⟩)

/-- Results of fallible code are comparable whenever their payloads are. -/
instance instDecidableEqExcept {ε α : Type} [DecidableEq ε] [DecidableEq α] :
    DecidableEq (Except ε α)
  | .error a, .error b =>
    if h : a = b then .isTrue (h ▸ rfl) else .isFalse (fun hh => by cases hh; exact h rfl)
  | .error _, .ok _ => .isFalse (fun hh => by cases hh)
  | .ok _, .error _ => .isFalse (fun hh => by cases hh)
  | .ok a, .ok b =>
    if h : a = b then .isTrue (h ▸ rfl) else .isFalse (fun hh => by cases hh; exact h rfl)

/-! ## Configuration (`internal/config`) -/

/-- `config.RateLimit`: a request count per unit of time (the unit kept as
its duration in nanoseconds: `time.Second`, `time.Minute`, `time.Hour`). -/
structure RateLimit where
  value : Int
  unit : Int
deriving DecidableEq, Repr

/-- The anchored regex `^(\d+)(rps|rpm|rph)$`: a matching string decomposes
uniquely into a non-empty digit run and a three-character unit. -/
def rateLimitMatch? (cs : List Char) : Option (List Char × List Char) :=
  let digits := cs.take (cs.length - 3)
  let unit := cs.drop (cs.length - 3)
  if digits ≠ [] ∧ allDigits digits ∧
      (unit = "rps".data ∨ unit = "rpm".data ∨ unit = "rph".data) then
    some (digits, unit)
  else none

/-- `config.ParseRateLimit`: empty means unlimited (`nil, nil`); a
non-matching string or a zero/over-range value is an error.  Error texts
are abbreviated models of the Go messages. -/
def ParseRateLimit (s : String) : Except String (Option RateLimit) :=
  if s = "" then .ok none
  else
    match rateLimitMatch? s.data with
    | none => .error ("invalid rate limit format " ++ s)
    | some (digits, unit) =>
      match atoi? digits with
      | none => .error "invalid rate limit value"
      | some v =>
        if v ≤ 0 then .error "rate limit value must be positive"
        else
          let u : Int :=
            if unit = "rps".data then 1000000000
            else if unit = "rpm".data then 60000000000
            else 3600000000000
          .ok (some { value := v, unit := u })

/-- `config.Provider`. -/
structure Provider where
  name : String := ""
  baseURL : String := ""
  apiToken : String := ""
  apiTokenEnv : String := ""
  rateLimit : String := ""
  models : List String := []
deriving DecidableEq, Repr

/-- `config.Config`; the TOML alias map is carried as an association list. -/
structure Config where
  defaultProvider : String := ""
  aliases : List (String × String) := []
  providers : List Provider := []
deriving DecidableEq, Repr

/-- `Provider.ResolveAPIToken` with `os.Getenv` modelled as a function
(`""` = unset). -/
def Provider.ResolveAPIToken (p : Provider) (env : String → String) : Except String String :=
  if p.apiToken ≠ "" then .ok p.apiToken
  else if p.apiTokenEnv ≠ "" then
    if env p.apiTokenEnv ≠ "" then .ok (env p.apiTokenEnv)
    else .error ("environment variable " ++ p.apiTokenEnv ++ " is not set")
  else .error "neither api_token nor api_token_env is specified"

/-- Decimal rendering of a `Nat` as a `String` (for error indices). -/
def natStr (n : Nat) : String := ⟨natToDec n⟩

/-- The provider loop of `Config.Validate`: threads the index, the set of
seen names and the default-found flag, collecting errors in order.  An
empty name skips the remaining checks for that provider (`continue`). -/
def validateProviders (dp : String) (i : Nat) (seen : List String) (found : Bool) :
    List Provider → Bool × List String
  | [] => (found, [])
  | p :: rest =>
    if p.name = "" then
      let r := validateProviders dp (i + 1) seen found rest
      (r.1, ("provider[" ++ natStr i ++ "]: name is required") :: r.2)
    else
      let e1 := if seen.contains p.name then
        ["provider[" ++ natStr i ++ "]: duplicate provider name " ++ p.name] else []
      let found2 := found || p.name == dp
      let e2 := if p.baseURL = "" then
        ["provider[" ++ natStr i ++ "] " ++ p.name ++ ": base_url is required"] else []
      let e3 := if p.apiToken = "" ∧ p.apiTokenEnv = "" then
        ["provider[" ++ natStr i ++ "] " ++ p.name ++
          ": either api_token or api_token_env is required"] else []
      let e4 := if p.rateLimit ≠ "" then
        match ParseRateLimit p.rateLimit with
        | .error e => ["provider[" ++ natStr i ++ "] " ++ p.name ++ ": " ++ e]
        | .ok _ => []
        else []
      let r := validateProviders dp (i + 1) (p.name :: seen) found2 rest
      (r.1, e1 ++ e2 ++ e3 ++ e4 ++ r.2)

/-- The alias checks of `Config.Validate`. -/
def validateAliases : List (String × String) → List String
  | [] => []
  | (a, m) :: rest =>
    (if a = "" then ["alias key cannot be empty"] else []) ++
    (if m = "" then ["alias " ++ a ++ ": model name cannot be empty"] else []) ++
    validateAliases rest

/-- `Config.Validate`, returning the collected error list; the Go function
returns `nil` exactly when this list is empty. -/
def Config.Validate (c : Config) : List String :=
  (if c.defaultProvider = "" then ["default_provider is required"] else []) ++
  (if c.providers = [] then ["at least one provider is required"] else []) ++
  (let r := validateProviders c.defaultProvider 0 [] false c.providers
   r.2 ++ (if c.defaultProvider ≠ "" ∧ c.providers ≠ [] ∧ ¬r.1 then
     ["default_provider " ++ c.defaultProvider ++ " not found in providers list"] else [])) ++
  validateAliases c.aliases

/-! ## Router (`internal/llm/router.go`) -/

/-- `llm.Client` as carried by the router: the resolved token and URL. -/
structure Client where
  apiToken : String
  baseURL : String
deriving DecidableEq, Repr

/-- `llm.Router`.  Go maps become functions `String → Option _` with
insert-overwrite semantics. -/
structure Router where
  providers : String → Option Client
  providerURLs : String → Option String
  rateLimiters : String → Option RateLimit
  aliases : String → Option String
  modelMapping : String → Option String
  defaultProvider : String

/-- Map insertion: later entries overwrite earlier ones, like Go map writes. -/
def mapInsert {α : Type} (m : String → Option α) (k : String) (v : α) : String → Option α :=
  fun x => if x = k then some v else m x

/-- A Go map literal built from its entries. -/
def mapOfList (l : List (String × String)) : String → Option String :=
  l.foldl (fun m kv => mapInsert m kv.1 kv.2) (fun _ => none)

/-- The provider loop of `NewRouter`: resolve the token, install client and
URL, parse and install the rate limiter, and index every served model. -/
def buildProviders (env : String → String) : List Provider → Router → Except String Router
  | [], r => .ok r
  | p :: rest, r =>
    match p.ResolveAPIToken env with
    | .error e => .error ("provider " ++ p.name ++ ": " ++ e)
    | .ok token =>
      let r1 := { r with
        providers := mapInsert r.providers p.name { apiToken := token, baseURL := p.baseURL },
        providerURLs := mapInsert r.providerURLs p.name p.baseURL }
      let r2e : Except String Router :=
        if p.rateLimit ≠ "" then
          match ParseRateLimit p.rateLimit with
          | .error e => .error ("provider " ++ p.name ++ ": " ++ e)
          | .ok none => .ok r1
          | .ok (some rl) => .ok { r1 with rateLimiters := mapInsert r1.rateLimiters p.name rl }
        else .ok r1
      match r2e with
      | .error e => .error e
      | .ok r2 =>
        let r3 := { r2 with
          modelMapping := p.models.foldl (fun mm model => mapInsert mm model p.name) r2.modelMapping }
        buildProviders env rest r3

/-- `llm.NewRouter`. -/
def NewRouter (cfg : Config) (env : String → String) : Except String Router :=
  buildProviders env cfg.providers
    { providers := fun _ => none, providerURLs := fun _ => none,
      rateLimiters := fun _ => none, aliases := mapOfList cfg.aliases,
      modelMapping := fun _ => none, defaultProvider := cfg.defaultProvider }

/-- `Router.resolveAlias`: a single hop through the alias table. -/
def Router.resolveAlias (r : Router) (model : String) : String :=
  match r.aliases model with
  | some fullName => fullName
  | none => model

/-- `Router.resolveProvider`: the model-to-provider index with the default
provider as fallback. -/
def Router.resolveProvider (r : Router) (model : String) : String :=
  match r.modelMapping model with
  | some p => p
  | none => r.defaultProvider

/-- `Router.ResolveModel`: expand the alias, then route the expansion. -/
def Router.ResolveModel (r : Router) (model : String) : String × String :=
  let fullName := r.resolveAlias model
  (fullName, r.resolveProvider fullName)

/-! ## ModelHash (`internal/exec/hash.go`) -/

/-- UTF-8 encoding of one character (Go `[]byte(model)`). -/
def utf8Bytes (c : Char) : List Nat :=
  let n := c.toNat
  if n < 128 then [n]
  else if n < 2048 then [192 ||| (n >>> 6), 128 ||| (n &&& 63)]
  else if n < 65536 then
    [224 ||| (n >>> 12), 128 ||| ((n >>> 6) &&& 63), 128 ||| (n &&& 63)]
  else
    [240 ||| (n >>> 18), 128 ||| ((n >>> 12) &&& 63), 128 ||| ((n >>> 6) &&& 63), 128 ||| (n &&& 63)]

/-- The bytes of a string. -/
def strBytes (s : String) : List Nat := (s.data.map utf8Bytes).flatten

/-- Truncation to a 32-bit word. -/
def w32 (n : Nat) : Nat := n % 4294967296

/-- 32-bit right rotation. -/
def rotr (x n : Nat) : Nat := w32 ((x >>> n) ||| (x <<< (32 - n)))

/-- The SHA-256 round constants. -/
def shaK : List Nat :=
  [1116352408, 1899447441, 3049323471, 3921009573, 961987163,
   1508970993, 2453635748, 2870763221, 3624381080, 310598401,
   607225278, 1426881987, 1925078388, 2162078206, 2614888103,
   3248222580, 3835390401, 4022224774, 264347078, 604807628,
   770255983, 1249150122, 1555081692, 1996064986, 2554220882,
   2821834349, 2952996808, 3210313671, 3336571891, 3584528711,
   113926993, 338241895, 666307205, 773529912, 1294757372,
   1396182291, 1695183700, 1986661051, 2177026350, 2456956037,
   2730485921, 2820302411, 3259730800, 3345764771, 3516065817,
   3600352804, 4094571909, 275423344, 430227734, 506948616,
   659060556, 883997877, 958139571, 1322822218, 1537002063,
   1747873779, 1955562222, 2024104815, 2227730452, 2361852424,
   2428436474, 2756734187, 3204031479, 3329325298]

/-- The SHA-256 initial hash values. -/
def shaH0 : List Nat :=
  [1779033703, 3144134277, 1013904242, 2773480762,
   1359893119, 2600822924, 528734635, 1541459225]

/-- Big-endian 64-bit byte encoding of the message bit length. -/
def be64 (n : Nat) : List Nat :=
  (List.range 8).map (fun i => (n >>> (8 * (7 - i))) % 256)

/-- SHA-256 padding: `0x80`, zeros to 56 mod 64, and the bit length. -/
def padMsg (msg : List Nat) : List Nat :=
  let padZeros := (119 - msg.length % 64) % 64
  msg ++ 128 :: List.replicate padZeros 0 ++ be64 (8 * msg.length)

/-- Big-endian 32-bit words of a byte list. -/
def toWords : List Nat → List Nat
  | a :: b :: c :: d :: rest => (((a * 256 + b) * 256 + c) * 256 + d) :: toWords rest
  | _ => []

/-- Extend the 16 block words to the 64-entry message schedule. -/
def extendW (w : List Nat) : List Nat :=
  (List.range 48).foldl (fun ws i =>
    let t := i + 16
    let x15 := ws.getD (t - 15) 0
    let x2 := ws.getD (t - 2) 0
    let s0 := (rotr x15 7) ^^^ (rotr x15 18) ^^^ (x15 >>> 3)
    let s1 := (rotr x2 17) ^^^ (rotr x2 19) ^^^ (x2 >>> 10)
    ws ++ [w32 (ws.getD (t - 16) 0 + s0 + ws.getD (t - 7) 0 + s1)]) w

/-- One SHA-256 compression round over the eight working variables. -/
def shaRound (ws : List Nat) (st : Nat × Nat × Nat × Nat × Nat × Nat × Nat × Nat) (i : Nat) :
    Nat × Nat × Nat × Nat × Nat × Nat × Nat × Nat :=
  let (a, b, c, d, e, f, g, h) := st
  let s1 := (rotr e 6) ^^^ (rotr e 11) ^^^ (rotr e 25)
  let ch := (e &&& f) ^^^ ((4294967295 ^^^ e) &&& g)
  let t1 := w32 (h + s1 + ch + shaK.getD i 0 + ws.getD i 0)
  let s0 := (rotr a 2) ^^^ (rotr a 13) ^^^ (rotr a 22)
  let mj := (a &&& b) ^^^ (a &&& c) ^^^ (b &&& c)
  let t2 := w32 (s0 + mj)
  (w32 (t1 + t2), a, b, c, w32 (d + t1), e, f, g)

/-- Compress one 64-byte block into the hash state. -/
def compressBlock (hs : List Nat) (block : List Nat) : List Nat :=
  let ws := extendW (toWords block)
  let init := (hs.getD 0 0, hs.getD 1 0, hs.getD 2 0, hs.getD 3 0,
               hs.getD 4 0, hs.getD 5 0, hs.getD 6 0, hs.getD 7 0)
  let (a, b, c, d, e, f, g, h) := (List.range 64).foldl (shaRound ws) init
  [w32 (hs.getD 0 0 + a), w32 (hs.getD 1 0 + b), w32 (hs.getD 2 0 + c), w32 (hs.getD 3 0 + d),
   w32 (hs.getD 4 0 + e), w32 (hs.getD 5 0 + f), w32 (hs.getD 6 0 + g), w32 (hs.getD 7 0 + h)]

/-- Split a padded message into 64-byte blocks (fuel-bounded structural
recursion; the fuel `l.length` suffices). -/
def toBlocksAux : Nat → List Nat → List (List Nat)
  | 0, _ => []
  | fuel + 1, l => if l = [] then [] else l.take 64 :: toBlocksAux fuel (l.drop 64)

/-- Split a padded message into 64-byte blocks. -/
def toBlocks (l : List Nat) : List (List Nat) := toBlocksAux l.length l

/-- The SHA-256 state after hashing a byte string. -/
def sha256Words (msg : List Nat) : List Nat :=
  (toBlocks (padMsg msg)).foldl compressBlock shaH0

/-- One hexadecimal digit. -/
def hexChar : Nat → Char
  | 0 => '0' | 1 => '1' | 2 => '2' | 3 => '3' | 4 => '4' | 5 => '5' | 6 => '6' | 7 => '7'
  | 8 => '8' | 9 => '9' | 10 => 'a' | 11 => 'b' | 12 => 'c' | 13 => 'd' | 14 => 'e' | _ => 'f'

/-- Big-endian bytes of a 32-bit word. -/
def wordBytes (w : Nat) : List Nat :=
  [(w >>> 24) &&& 255, (w >>> 16) &&& 255, (w >>> 8) &&& 255, w &&& 255]

/-- Two hex characters of a byte. -/
def byteHex (b : Nat) : List Char := [hexChar (b / 16), hexChar (b % 16)]

/-- `exec.ModelHash`: the first 8 characters of the hex SHA-256 digest. -/
def ModelHash (model : String) : String :=
  ⟨((((sha256Words (strBytes model)).map wordBytes).flatten.map byteHex).flatten).take 8⟩

/-! ## Response writer (`internal/exec/writer.go`) -/

/-- `exec.WriteOptions`. -/
structure WriteOptions where
  providerURL : String := ""
  model : String := ""
  duration : Int := 0
  inputTokens : Int := 0
  outputTokens : Int := 0
deriving DecidableEq, Repr

/-- A pure file store standing in for the file system. -/
def Store := String → Option String

/-- `os.WriteFile`: overwrite the path with the new content. -/
def storeWrite (st : Store) (path content : String) : Store :=
  fun x => if x = path then some content else st x

/-- `filepath.Join` modelled for clean, non-empty relative components. -/
def pathJoin (a b : String) : String := if a = "" then b else a ++ "/" ++ b

/-- Reverse scan for `filepath.Ext`: collect up to the last dot of the last
path element. -/
def pathExtAux (acc : List Char) : List Char → List Char
  | [] => []
  | c :: rest =>
    if c = '.' then c :: acc
    else if c = '/' then []
    else pathExtAux (c :: acc) rest

/-- `filepath.Ext`. -/
def pathExt (s : String) : String := ⟨pathExtAux [] s.data.reverse⟩

/-- `strings.TrimSuffix` on character lists. -/
def trimSuffix (s suf : List Char) : List Char :=
  if suf.length ≤ s.length ∧ s.drop (s.length - suf.length) = suf then
    s.take (s.length - suf.length)
  else s

/-- `query_001.md` to `query_001` (the extension stripped). -/
def baseNameOf (queryID : String) : String := ⟨trimSuffix queryID.data (pathExt queryID).data⟩

/-- The output path `{baseDir}/{model_hash}/{query_id}_response.md`. -/
def responsePath (baseDir model queryID : String) : String :=
  pathJoin (pathJoin baseDir (ModelHash model)) (baseNameOf queryID ++ "_response.md")

/-- The fresh metadata `ResponseWriter.Write` builds: the execution fields
from the write options, the current instant, and nil rating fields. -/
def freshMeta (opts : WriteOptions) (now : Nat) : Metadata :=
  { provider := opts.providerURL, model := opts.model, duration := opts.duration,
    input := opts.inputTokens, output := opts.outputTokens, executedAt := now,
    rating := none, ratedAt := none }

/-- `ResponseWriter.Write`: build fresh metadata with nil rating fields and
the current instant, format it with the content, and overwrite the output
file.  `MkdirAll`/`WriteFile` never fail in the pure store and `Format`
is total here, so the Go error return is always `nil`. -/
def ResponseWriterWrite (baseDir model queryID content : String) (opts : WriteOptions)
    (now : Nat) (st : Store) : String × Store :=
  let path := responsePath baseDir model queryID
  (path, storeWrite st path (Format (some (freshMeta opts now)) content))

/-! ## Executor (`internal/exec/executor.go`) -/

/-- `llm.ChatRequest`.  The `float64` temperature is carried opaquely as a
rational: the executor and router only pass it through. -/
structure ChatRequest where
  model : String := ""
  systemPrompt : String := ""
  userMessage : String := ""
  temperature : Rat := 0
  maxTokens : Int := 0
deriving DecidableEq, Repr

/-- `llm.ChatResponse`. -/
structure ChatResponse where
  content : String := ""
  model : String := ""
  providerURL : String := ""
  promptTokens : Int := 0
  outputTokens : Int := 0
  duration : Int := 0
deriving DecidableEq, Repr

/-- `plan.LLM`. -/
structure LLM where
  models : List String := []
  maxTokens : Int := 0
  temperature : Rat := 0
deriving DecidableEq, Repr

/-- `plan.Assistant`. -/
structure Assistant where
  systemPrompt : String := ""
  llm : LLM := {}
deriving DecidableEq, Repr

/-- `plan.Query`. -/
structure Query where
  id : String
deriving DecidableEq, Repr

/-- `plan.Plan`. -/
structure Plan where
  planID : String := ""
  assistantID : String := ""
  assistant : Assistant := {}
  queries : List Query := []
deriving DecidableEq, Repr

/-- `exec.ProgressEventType`. -/
inductive ProgressEventType
  | taskStart
  | taskDone
  | taskError
deriving DecidableEq, Repr

/-- `exec.TokenUsage`. -/
structure TokenUsage where
  prompt : Int := 0
  output : Int := 0
deriving DecidableEq, Repr

/-- `exec.ProgressEvent`.  Wall-clock duration measurement is abstracted
to `0` (no claim concerns it). -/
structure ProgressEvent where
  type : ProgressEventType
  model : String := ""
  queryID : String := ""
  tokens : TokenUsage := {}
  duration : Int := 0
  err : Option String := none
deriving DecidableEq, Repr

/-- `exec.Options`.  The progress callback is modelled by the flag
`onProgress` (`OnProgress != nil`); emitted events are collected in a
list instead of being passed to the callback. -/
structure Options where
  dryRun : Bool := false
  parallel : Int := 0
  continueRun : Bool := false
  onProgress : Bool := false
deriving DecidableEq, Repr

/-- `exec.Result`. -/
structure Result where
  response : String := ""
  model : String := ""
  queryID : String := ""
  outputPath : String := ""
  promptTokens : Int := 0
  outputTokens : Int := 0
deriving DecidableEq, Repr

/-- `exec.ExecutionSummary`. -/
structure ExecutionSummary where
  results : List Result := []
  totalQueries : Nat := 0
  totalModels : Nat := 0
  totalTokensPrompt : Int := 0
  totalTokensOutput : Int := 0
  errors : List String := []
deriving DecidableEq, Repr

/-- The executor's environment: the plan-derived request parameters, the
chat client (an oracle function standing in for `llm.ChatClient`), the
writer's base directory, the clock instant and the callback flag. -/
structure ExecEnv where
  assistantDir : String
  systemPrompt : String
  temperature : Rat
  maxTokens : Int
  chat : ChatRequest → Except String ChatResponse
  writerBase : String
  now : Nat
  onProgress : Bool

/-- `Executor.executeOne`: read the query input, call the chat client, and
write the response with its metadata.  The `Write` call site follows the
current four-argument `ResponseWriter.Write` of `writer.go`, embedding the
chat response's execution metadata, as §4.5 of the spec describes. -/
def executeOne (env : ExecEnv) (model queryID : String) (st : Store) :
    Except String (Result × Store) :=
  let queryPath := pathJoin (pathJoin env.assistantDir "Input") queryID
  match st queryPath with
  | none => .error ("failed to read query file " ++ queryPath ++ ": no such file or directory")
  | some queryContent =>
    match env.chat { model := model, systemPrompt := env.systemPrompt,
                     userMessage := queryContent, temperature := env.temperature,
                     maxTokens := env.maxTokens } with
    | .error e => .error e
    | .ok resp =>
      let wr := ResponseWriterWrite env.writerBase model queryID resp.content
        { providerURL := resp.providerURL, model := resp.model, duration := resp.duration,
          inputTokens := resp.promptTokens, outputTokens := resp.outputTokens } env.now st
      .ok ({ response := resp.content, model := resp.model, queryID := queryID,
             outputPath := wr.1, promptTokens := resp.promptTokens,
             outputTokens := resp.outputTokens }, wr.2)

/-- Append an event when a callback is installed. -/
def emitIf (b : Bool) (ev : List ProgressEvent) (e : ProgressEvent) : List ProgressEvent :=
  if b then ev ++ [e] else ev

/-- The inner (queries) loop of `Executor.Execute`: per task a start event,
then either an error appended to the summary (and an error event) or a
result with its token counts (and a done event); errors never abort. -/
def execQueries (env : ExecEnv) (model : String) :
    List Query → ExecutionSummary → Store → List ProgressEvent →
    ExecutionSummary × Store × List ProgressEvent
  | [], s, st, ev => (s, st, ev)
  | q :: rest, s, st, ev =>
    let ev1 := emitIf env.onProgress ev { type := .taskStart, model := model, queryID := q.id }
    match executeOne env model q.id st with
    | .error e =>
      let s1 := { s with errors := s.errors ++
        ["model=" ++ model ++ " query=" ++ q.id ++ ": " ++ e] }
      let ev2 := emitIf env.onProgress ev1
        { type := .taskError, model := model, queryID := q.id, err := some e }
      execQueries env model rest s1 st ev2
    | .ok (r, st1) =>
      let s1 := { s with results := s.results ++ [r],
                         totalTokensPrompt := s.totalTokensPrompt + r.promptTokens,
                         totalTokensOutput := s.totalTokensOutput + r.outputTokens }
      let ev2 := emitIf env.onProgress ev1
        { type := .taskDone, model := model, queryID := q.id,
          tokens := { prompt := r.promptTokens, output := r.outputTokens } }
      execQueries env model rest s1 st1 ev2

/-- The outer (models) loop of `Executor.Execute`. -/
def execModels (env : ExecEnv) (queries : List Query) :
    List String → ExecutionSummary → Store → List ProgressEvent →
    ExecutionSummary × Store × List ProgressEvent
  | [], s, st, ev => (s, st, ev)
  | m :: rest, s, st, ev =>
    let r := execQueries env m queries s st ev
    execModels env queries rest r.1 r.2.1 r.2.2

/-- `Executor.Execute`: fail fast on an empty plan, then run the full
models-outer, queries-inner cross product, returning the summary, the
final store and the collected progress events. -/
def Execute (p : Plan) (assistantDir : String)
    (chat : ChatRequest → Except String ChatResponse) (opts : Options) (now : Nat)
    (st : Store) : Except String (ExecutionSummary × Store × List ProgressEvent) :=
  if p.assistant.llm.models = [] then .error "no models specified in plan"
  else if p.queries = [] then .error "no queries specified in plan"
  else
    let env : ExecEnv :=
      { assistantDir := assistantDir, systemPrompt := p.assistant.systemPrompt,
        temperature := p.assistant.llm.temperature, maxTokens := p.assistant.llm.maxTokens,
        chat := chat, writerBase := pathJoin (pathJoin assistantDir "Output") p.planID,
        now := now, onProgress := opts.onProgress }
    .ok (execModels env p.queries p.assistant.llm.models
      { totalQueries := p.queries.length, totalModels := p.assistant.llm.models.length } st [])

/-! ## Plain scalars and canonical metadata -/

/-- Characters on which the modelled YAML scalar encoding coincides with
`gopkg.in/yaml.v3` (emitted verbatim, read back verbatim). -/
def plainChar (c : Char) : Bool := c.isAlphanum || c ∈ ['-', '.', '_', '/', '+', ':']

/-- A plain YAML scalar: non-empty, plain characters, not a null token. -/
def plainStr (s : String) : Bool :=
  (s != "") && s.data.all plainChar && (s != "null") && (s != "Null") && (s != "NULL")

/-- Empty (omitted by `omitempty`) or plain. -/
def plainOrEmpty (s : String) : Bool := (s == "") || plainStr s

/-- The duration value a round trip through `formatDuration` and
`time.ParseDuration` yields for a positive duration: truncated to
milliseconds below one second, else rounded to centiseconds. -/
def reparseDur (d : Int) : Int :=
  let ms := durMs d
  if ms < 1000 then ms * 1000000
  else (((ms.toNat + 5) / 10 : Nat) : Int) * 10000000

/-- The token count a round trip through `"%dt"` and `parseTokens` yields:
unchanged in `(0, 2^63)`, else `0` (omitted or out of `Atoi` range). -/
def reparseTok (i : Int) : Int := if 0 < i ∧ i ≤ (int64Max : Int) then i else 0

/-- The metadata value that parsing a formatted non-empty metadata block
reproduces: exact except for the lossy duration and token re-encodings. -/
def reparse (m : Metadata) : Metadata :=
  { provider := m.provider, model := m.model,
    duration := if 0 < m.duration then reparseDur m.duration else 0,
    input := reparseTok m.input, output := reparseTok m.output,
    executedAt := m.executedAt, rating := m.rating, ratedAt := m.ratedAt }

/-- Canonically-encodable metadata: the domain on which the round-trip law
holds exactly — plain string fields, a duration that is zero or a whole
positive number of milliseconds (whole centiseconds from one second up),
and token counts in `[0, 2^63)`; a value that is empty apart from
`ratedAt` cannot round-trip because `IsEmpty` ignores `ratedAt`. -/
def Canonical (m : Metadata) : Prop :=
  plainOrEmpty m.provider = true ∧ plainOrEmpty m.model = true ∧
  (m.duration = 0 ∨ (0 < m.duration ∧ m.duration % 1000000 = 0 ∧
    m.duration ≤ (int64Max : Int) ∧
    (m.duration < 1000000000 ∨ m.duration % 10000000 = 0))) ∧
  0 ≤ m.input ∧ m.input ≤ (int64Max : Int) ∧
  0 ≤ m.output ∧ m.output ≤ (int64Max : Int) ∧
  (∀ v, m.rating = some v → plainStr v = true) ∧
  (m.IsEmpty = true → m.ratedAt = none)

/-- The `metadataYAML` value decoding the emitted lines reconstructs. -/
def auxOf (m : Metadata) : MetadataYAML :=
  { provider := m.provider, model := m.model,
    duration := if m.duration > 0 then ⟨formatDuration m.duration⟩ else "",
    input := if m.input > 0 then ⟨intToDec m.input ++ ['t']⟩ else "",
    output := if m.output > 0 then ⟨intToDec m.output ++ ['t']⟩ else "",
    executedAt := if m.executedAt ≠ 0 then some ⟨timeEncode m.executedAt⟩ else none,
    rating := m.rating,
    ratedAt := m.ratedAt.map (fun t => ⟨timeEncode t⟩) }

/-- A safe mapping line: non-empty, newline-free, and not starting with a
dash — the emitted `key: value` lines all qualify, which keeps the
front-matter scan from matching inside the block. -/
def goodLine (l : List Char) : Prop :=
  l ≠ [] ∧ '\n' ∉ l ∧ l.head? ≠ some '-'

/-- Lines two onward, each with its separating newline. -/
def sepJoin (ls : List (List Char)) : List Char := (ls.map (fun l => '\n' :: l)).flatten

/-- Newline-intercalated lines (the regex group's text). -/
def joinNL : List (List Char) → List Char
  | [] => []
  | l :: rest => l ++ sepJoin rest

/-- The `(model, queryID)` carried by a start event. -/
def startProj (e : ProgressEvent) : Option (String × String) :=
  match e.type with
  | .taskStart => some (e.model, e.queryID)
  | _ => none

/-- The `(model, queryID)` carried by a terminal (done or error) event. -/
def termProj (e : ProgressEvent) : Option (String × String) :=
  match e.type with
  | .taskStart => none
  | _ => some (e.model, e.queryID)

/-- The task matrix in models-outer, queries-inner order. -/
def crossTasks (p : Plan) : List (String × String) :=
  (p.assistant.llm.models.map (fun m => p.queries.map (fun q => (m, q.id)))).flatten

/-- The file content found at the path `ResponseWriter.Write` returns. -/
def writtenFile (baseDir model queryID content : String) (opts : WriteOptions)
    (now : Nat) (st : Store) : String :=
  ((ResponseWriterWrite baseDir model queryID content opts now st).2
    (ResponseWriterWrite baseDir model queryID content opts now st).1).getD ""

/-- The spec's rate-limit grammar `<positive-integer><rps|rpm|rph>` (strict
anchor, no internal whitespace, value > 0), written from the spec's words
for comparison with `ParseRateLimit`. -/
def specRateLimitGrammar (s : String) : Option (Nat × String) :=
  let cs := s.data
  let digits := cs.take (cs.length - 3)
  let unit := cs.drop (cs.length - 3)
  if digits ≠ [] ∧ allDigits digits ∧ 0 < parseDigits digits ∧
      (unit = "rps".data ∨ unit = "rpm".data ∨ unit = "rph".data) then
    some (parseDigits digits, ⟨unit⟩)
  else none

/-- The unit duration named by a grammar unit string. -/
def specUnitDur (u : String) : Int :=
  if u = "rps" then 1000000000 else if u = "rpm" then 60000000000 else 3600000000000

/-- The provider name `ResolveModel` returns on the router built from a
configuration, `none` when `NewRouter` itself fails. -/
def resolvedProviderName (cfg : Config) (env : String → String) (s : String) : Option String :=
  match NewRouter cfg env with
  | .ok r => some (r.ResolveModel s).2
  | .error _ => none

/-- A concrete router for the C6 witness. -/
def c6router : Router :=
  { providers := fun _ => none, providerURLs := fun _ => none,
    rateLimiters := fun _ => none,
    aliases := fun x => if x = "fast" then some "gpt-4o" else none,
    modelMapping := fun x => if x = "gpt-4o" then some "openai" else none,
    defaultProvider := "fallback" }

/-- A concrete valid configuration for the C7 witness. -/
def c7cfg : Config :=
  { defaultProvider := "openai", aliases := [],
    providers := [{ name := "openai", baseURL := "https://u", apiToken := "t",
                    apiTokenEnv := "", rateLimit := "", models := ["gpt-4o"] }] }

/-- C2 fixtures: a 1×1 plan whose output file already exists from a prior
run ("old"), executed with `Continue` set. -/
def c2plan : Plan :=
  { planID := "P", assistant := { llm := { models := ["m1"] } }, queries := [⟨"q1.md"⟩] }

def c2outPath : String := responsePath "A/Output/P" "m1" "q1.md"

def c2store : Store := fun p =>
  if p = "A/Input/q1.md" then some "c1"
  else if p = c2outPath then some "old" else none

def c2chat : ChatRequest → Except String ChatResponse :=
  fun _ => .ok { content := "new" }

/-- Observation of the C2 run: the stored output file and the result count. -/
def c2outcome : Option String × Nat :=
  match Execute c2plan "A" c2chat { continueRun := true } 7 c2store with
  | .ok (s, st, _) => (st c2outPath, s.results.length)
  | .error _ => (none, 0)

/-- C3 fixtures: a 2×2 plan; tasks are addressed by a (model, query)
position pair of booleans. -/
def c3model : Bool → String := fun b => if b then "m2" else "m1"

def c3query : Bool → String := fun b => if b then "q2.md" else "q1.md"

def c3positions : List (Bool × Bool) := [(false, false), (false, true), (true, false), (true, true)]

def c3plan : Plan :=
  { planID := "P",
    assistant := { systemPrompt := "S", llm := { models := ["m1", "m2"], maxTokens := 100 } },
    queries := [⟨"q1.md"⟩, ⟨"q2.md"⟩] }

def c3store : Store := fun p =>
  if p = "A/Input/q1.md" then some "c1"
  else if p = "A/Input/q2.md" then some "c2" else none

/-- The task position a chat request addresses. -/
def c3pos? (req : ChatRequest) : Option (Bool × Bool) :=
  if req.model = "m1" ∧ req.userMessage = "c1" then some (false, false)
  else if req.model = "m1" ∧ req.userMessage = "c2" then some (false, true)
  else if req.model = "m2" ∧ req.userMessage = "c1" then some (true, false)
  else if req.model = "m2" ∧ req.userMessage = "c2" then some (true, true)
  else none

/-- A chat client that fails exactly at position `fail` and answers every
other task from `resp`. -/
def c3chat (fail : Bool × Bool) (resp : Bool × Bool → ChatResponse) (emsg : String) :
    ChatRequest → Except String ChatResponse :=
  fun req =>
    match c3pos? req with
    | some pos => if pos = fail then .error emsg else .ok (resp pos)
    | none => .error "unexpected request"

/-- C9 fixtures: one model, one query, a successful run. -/
def c9plan : Plan :=
  { planID := "P", assistant := { llm := { models := ["m1"] } }, queries := [⟨"q1.md"⟩] }

def c9store : Store := fun p => if p = "A/Input/q1.md" then some "c1" else none

def c9chat : ChatRequest → Except String ChatResponse :=
  fun _ => .ok { content := "r", promptTokens := 1, outputTokens := 2 }

/-- The number of progress events the C9 run emits. -/
def c9eventCount : Nat :=
  match Execute c9plan "A" c9chat { onProgress := true } 7 c9store with
  | .ok (_, _, ev) => ev.length
  | .error _ => 0

/-! ## Decimal encoding lemmas -/

theorem natToDecAux_eq_digits (fuel : Nat) :
    ∀ n : Nat, n ≤ fuel → natToDecAux fuel n = ((Nat.digits 10 n).map digitToChar).reverse := by
  induction fuel with
  | zero =>
    intro n hn
    interval_cases n
    simp [natToDecAux]
  | succ f ih =>
    intro n hn
    by_cases hz : n = 0
    · subst hz; simp [natToDecAux]
    · have hdiv : n / 10 < n := Nat.div_lt_self (Nat.pos_of_ne_zero hz) (by norm_num)
      rw [natToDecAux, if_neg hz, ih (n / 10) (by omega),
        Nat.digits_def' (by norm_num : 1 < 10) (Nat.pos_of_ne_zero hz)]
      simp

theorem natToDec_eq_digits (n : Nat) (h : n ≠ 0) :
    natToDec n = ((Nat.digits 10 n).map digitToChar).reverse := by
  rw [natToDec, if_neg h]
  exact natToDecAux_eq_digits n n le_rfl

theorem digitToChar_isDigit (d : Nat) : (digitToChar d).isDigit = true := by
  unfold digitToChar
  split <;> decide

theorem charVal_digitToChar (d : Nat) (h : d < 10) : charVal (digitToChar d) = d := by
  interval_cases d <;> decide

theorem natToDec_allDigits (n : Nat) : allDigits (natToDec n) = true := by
  by_cases h : n = 0
  · subst h; decide
  · rw [natToDec_eq_digits n h]
    simp only [allDigits, List.all_eq_true, List.mem_reverse, List.mem_map]
    rintro c ⟨d, _, rfl⟩
    exact digitToChar_isDigit d

theorem natToDec_ne_nil (n : Nat) : natToDec n ≠ [] := by
  by_cases h : n = 0
  · subst h; decide
  · rw [natToDec_eq_digits n h]
    simp [Nat.digits_ne_nil_iff_ne_zero, h]

theorem foldr_digits_eq_ofDigits (L : List Nat) (h : ∀ d ∈ L, d < 10) :
    (L.map digitToChar).foldr (fun c a => 10 * a + charVal c) 0 = Nat.ofDigits 10 L := by
  induction L with
  | nil => simp [Nat.ofDigits]
  | cons d t ih =>
    simp only [List.map_cons, List.foldr_cons]
    rw [charVal_digitToChar d (h d (by simp)), ih (fun x hx => h x (by simp [hx])),
      Nat.ofDigits_cons]
    omega

theorem parseDigits_natToDec (n : Nat) : parseDigits (natToDec n) = n := by
  by_cases h : n = 0
  · subst h; decide
  · rw [natToDec_eq_digits n h]
    unfold parseDigits
    rw [List.foldl_reverse]
    have := foldr_digits_eq_ofDigits (Nat.digits 10 n)
      (fun d hd => Nat.digits_lt_base (by norm_num) hd)
    simpa [Nat.ofDigits_digits] using this

theorem decToNat?_natToDec (n : Nat) : decToNat? (natToDec n) = some n := by
  unfold decToNat?
  rw [if_pos ⟨natToDec_ne_nil n, natToDec_allDigits n⟩, parseDigits_natToDec]

theorem timeDecode_timeEncode (n : Nat) : timeDecode (timeEncode n) = .ok n := by
  simp [timeDecode, timeEncode, decToNat?_natToDec]

theorem isDigit_ne_signs (c : Char) (h : c.isDigit = true) : c ≠ '-' ∧ c ≠ '+' := by
  constructor <;> rintro rfl <;> exact absurd h (by decide)

theorem atoi?_digits (cs : List Char) (hne : cs ≠ []) (hd : allDigits cs = true) :
    atoi? cs = if parseDigits cs ≤ int64Max then some ((parseDigits cs : Int)) else none := by
  cases cs with
  | nil => exact absurd rfl hne
  | cons c t =>
    have hc : c.isDigit = true := by
      simp only [allDigits, List.all_cons, Bool.and_eq_true] at hd
      exact hd.1
    obtain ⟨h1, h2⟩ := isDigit_ne_signs c hc
    rw [atoi?, if_neg h1, if_neg h2]
    unfold atoiCore
    rw [show decToNat? (c :: t) = some (parseDigits (c :: t)) from by
      unfold decToNat?; rw [if_pos ⟨by simp, hd⟩]]

theorem intToDec_nonneg (i : Int) (h : 0 ≤ i) : intToDec i = natToDec i.toNat := by
  rw [intToDec, if_neg (by omega)]
  congr 1
  omega

theorem atoi?_intToDec_pos (i : Int) (h0 : 0 < i) :
    atoi? (intToDec i) = if i ≤ (int64Max : Int) then some i else none := by
  rw [intToDec_nonneg i h0.le,
    atoi?_digits _ (natToDec_ne_nil _) (natToDec_allDigits _), parseDigits_natToDec]
  by_cases hb : i ≤ (int64Max : Int)
  · rw [if_pos (by omega), if_pos hb]
    congr 1
    omega
  · rw [if_neg (by omega), if_neg hb]

theorem trimSuffixT_append (l : List Char) : trimSuffixT (l ++ ['t']) = l := by
  unfold trimSuffixT
  rw [List.reverse_append]
  simp

theorem parseTokens_intToDec (i : Int) (h0 : 0 < i) :
    parseTokens (intToDec i ++ ['t']) = reparseTok i := by
  rw [parseTokens, trimSuffixT_append, atoi?_intToDec_pos i h0]
  unfold reparseTok
  by_cases hb : i ≤ (int64Max : Int)
  · rw [if_pos hb, if_pos ⟨h0, hb⟩]; rfl
  · rw [if_neg hb, if_neg (by tauto)]; rfl

/-! ## Duration lemmas -/

theorem takeWhile_all_append (p : Char → Bool) (l s : List Char) (h : ∀ c ∈ l, p c = true) :
    (l ++ s).takeWhile p = l ++ s.takeWhile p := by
  induction l with
  | nil => simp
  | cons c t ih =>
    have hc := h c (by simp)
    have ht : ∀ x ∈ t, p x = true := fun x hx => h x (by simp [hx])
    simp [List.takeWhile_cons, hc, ih ht]

theorem dropWhile_all_append (p : Char → Bool) (l s : List Char) (h : ∀ c ∈ l, p c = true) :
    (l ++ s).dropWhile p = s.dropWhile p := by
  induction l with
  | nil => simp
  | cons c t ih =>
    simp only [List.cons_append, List.dropWhile_cons, h c (by simp)]
    exact ih (fun x hx => h x (by simp [hx]))

theorem pad2_allDigits (n : Nat) : ∀ c ∈ pad2 n, c.isDigit = true := by
  intro c hc
  have hall := natToDec_allDigits n
  simp only [allDigits, List.all_eq_true] at hall
  unfold pad2 at hc
  split at hc
  · rcases List.mem_cons.mp hc with h | h
    · subst h; decide
    · exact hall c h
  · exact hall c hc

set_option maxRecDepth 4000 in
theorem pad2_length (n : Nat) (h : n < 100) : (pad2 n).length = 2 := by
  revert h
  revert n
  decide

set_option maxRecDepth 4000 in
theorem parseDigits_pad2 (n : Nat) (h : n < 100) : parseDigits (pad2 n) = n := by
  revert h
  revert n
  decide

theorem mem_natToDec_isDigit (n : Nat) (c : Char) (h : c ∈ natToDec n) : c.isDigit = true := by
  have := natToDec_allDigits n
  simp only [allDigits, List.all_eq_true] at this
  exact this c h

theorem noNL_natToDec (n : Nat) : '\n' ∉ natToDec n := by
  intro h
  exact absurd (mem_natToDec_isDigit n _ h) (by decide)

set_option maxRecDepth 2000 in
theorem parseGoDuration_formatDuration (d : Int) (h0 : 0 < d) :
    parseGoDuration (formatDuration d) = .ok (reparseDur d) := by
  have hms : 0 ≤ durMs d := Int.tdiv_nonneg h0.le (by norm_num)
  by_cases hlt : durMs d < 1000
  · -- sub-second branch: "<ms>ms"
    have hfd : formatDuration d = natToDec (durMs d).toNat ++ ['m', 's'] := by
      unfold formatDuration
      rw [if_pos hlt, intToDec_nonneg _ hms]
    have hDdig : ∀ c ∈ natToDec (durMs d).toNat, c.isDigit = true :=
      fun c hc => mem_natToDec_isDigit _ c hc
    have hDne := natToDec_ne_nil (durMs d).toNat
    have hDpos : 0 < (natToDec (durMs d).toNat).length := List.length_pos.mpr hDne
    have h1 : natToDec (durMs d).toNat ++ ['m', 's'] ≠ ['0'] := by
      intro heq
      have := congrArg List.length heq
      simp only [List.length_append, List.length_cons, List.length_nil] at this
      omega
    have h2 : (natToDec (durMs d).toNat ++ ['m', 's']).takeWhile Char.isDigit
        = natToDec (durMs d).toNat := by
      rw [takeWhile_all_append _ _ _ hDdig,
        show List.takeWhile Char.isDigit ['m', 's'] = [] from by decide, List.append_nil]
    have h3 : (natToDec (durMs d).toNat ++ ['m', 's']).dropWhile Char.isDigit = ['m', 's'] := by
      rw [dropWhile_all_append _ _ _ hDdig]
      decide
    rw [hfd]
    unfold parseGoDuration
    rw [if_neg h1]
    simp only [h2, h3]
    rw [if_neg hDne, if_neg (by decide : ¬(List.take 1 ['m', 's'] = ['.']))]
    simp only [show durUnit? ['m', 's'] = some 1000000 from rfl, parseDigits_natToDec]
    unfold reparseDur
    rw [if_pos hlt, Int.toNat_of_nonneg hms]
  · -- seconds branch: "<s>.<cc>s"
    have hcent : (durMs d).toNat % 1000 < 1000 := Nat.mod_lt _ (by norm_num)
    have hfd : formatDuration d = natToDec (((durMs d).toNat + 5) / 10 / 100) ++
        '.' :: (pad2 (((durMs d).toNat + 5) / 10 % 100) ++ ['s']) := by
      unfold formatDuration
      rw [if_neg hlt]
    have hDdig : ∀ c ∈ natToDec (((durMs d).toNat + 5) / 10 / 100), c.isDigit = true :=
      fun c hc => mem_natToDec_isDigit _ c hc
    have hDne := natToDec_ne_nil (((durMs d).toNat + 5) / 10 / 100)
    have hDpos : 0 < (natToDec (((durMs d).toNat + 5) / 10 / 100)).length :=
      List.length_pos.mpr hDne
    have hPdig := pad2_allDigits (((durMs d).toNat + 5) / 10 % 100)
    have hPlen := pad2_length (((durMs d).toNat + 5) / 10 % 100) (Nat.mod_lt _ (by norm_num))
    have h1 : natToDec (((durMs d).toNat + 5) / 10 / 100) ++
        '.' :: (pad2 (((durMs d).toNat + 5) / 10 % 100) ++ ['s']) ≠ ['0'] := by
      intro heq
      have := congrArg List.length heq
      simp only [List.length_append, List.length_cons, List.length_nil] at this
      omega
    have h2 : (natToDec (((durMs d).toNat + 5) / 10 / 100) ++
        '.' :: (pad2 (((durMs d).toNat + 5) / 10 % 100) ++ ['s'])).takeWhile Char.isDigit
          = natToDec (((durMs d).toNat + 5) / 10 / 100) := by
      rw [takeWhile_all_append _ _ _ hDdig, List.takeWhile_cons]
      simp
    have h3 : (natToDec (((durMs d).toNat + 5) / 10 / 100) ++
        '.' :: (pad2 (((durMs d).toNat + 5) / 10 % 100) ++ ['s'])).dropWhile Char.isDigit
          = '.' :: (pad2 (((durMs d).toNat + 5) / 10 % 100) ++ ['s']) := by
      rw [dropWhile_all_append _ _ _ hDdig, List.dropWhile_cons]
      simp
    have h4 : (pad2 (((durMs d).toNat + 5) / 10 % 100) ++ ['s']).takeWhile Char.isDigit
        = pad2 (((durMs d).toNat + 5) / 10 % 100) := by
      rw [takeWhile_all_append _ _ _ hPdig,
        show List.takeWhile Char.isDigit ['s'] = [] from by decide, List.append_nil]
    have h5 : (pad2 (((durMs d).toNat + 5) / 10 % 100) ++ ['s']).dropWhile Char.isDigit
        = ['s'] := by
      rw [dropWhile_all_append _ _ _ hPdig]
      decide
    rw [hfd]
    unfold parseGoDuration
    rw [if_neg h1]
    simp only [h2, h3]
    rw [if_neg hDne, if_pos (by simp : List.take 1 ('.' ::
      (pad2 (((durMs d).toNat + 5) / 10 % 100) ++ ['s'])) = ['.'])]
    simp only [List.drop_succ_cons, List.drop_zero, h4, h5]
    simp only [show durUnit? ['s'] = some 1000000000 from rfl, parseDigits_natToDec,
      parseDigits_pad2 _ (Nat.mod_lt _ (by norm_num)), hPlen]
    unfold reparseDur
    rw [if_neg hlt]
    refine congrArg Except.ok ?_
    have hcast : ((10 ^ 2 : Nat) : Int) = 100 := by norm_num
    rw [hcast]
    omega

theorem noNL_intToDec (i : Int) : '\n' ∉ intToDec i := by
  intro h
  unfold intToDec at h
  split at h
  · rcases List.mem_cons.mp h with h | h
    · exact absurd h (by decide)
    · exact noNL_natToDec _ h
  · exact noNL_natToDec _ h

theorem formatDuration_ne_nil (d : Int) : formatDuration d ≠ [] := by
  show (if durMs d < 1000 then _ else _) ≠ []
  by_cases h : durMs d < 1000
  · rw [if_pos h]
    simp
  · rw [if_neg h]
    simp

theorem formatDuration_noNL (d : Int) : '\n' ∉ formatDuration d := by
  intro h
  have h' : '\n' ∈ (if durMs d < 1000 then intToDec (durMs d) ++ ['m', 's']
      else natToDec (((durMs d).toNat + 5) / 10 / 100) ++
        '.' :: (pad2 (((durMs d).toNat + 5) / 10 % 100) ++ ['s'])) := h
  split at h'
  · rcases List.mem_append.mp h' with h2 | h2
    · exact noNL_intToDec _ h2
    · simp at h2
  · rcases List.mem_append.mp h' with h2 | h2
    · exact noNL_natToDec _ h2
    · rcases List.mem_cons.mp h2 with h3 | h3
      · exact absurd h3 (by decide)
      · rcases List.mem_append.mp h3 with h4 | h4
        · exact absurd ((pad2_allDigits _) _ h4) (by decide)
        · simp at h4

/-! ## Front-matter scan lemmas -/

theorem trimLeftNL_of_head (cs : List Char) (h : cs.head? ≠ some '\n') : trimLeftNL cs = cs := by
  cases cs with
  | nil => rfl
  | cons c t =>
    have hc : ¬(c = '\n') := by
      intro hcc
      exact h (by simp [hcc])
    simp [trimLeftNL, List.dropWhile_cons, hc]

theorem frontMatterSplit_none (cs : List Char) (h : cs.take 4 ≠ "---\n".data) :
    frontMatterSplit cs = none := by
  rw [frontMatterSplit, if_neg h]

theorem findSplit_marker (B : List Char) : findSplit (markerL ++ B) = some ([], B) := rfl

theorem findSplit_cons_ne (c : Char) (t : List Char) (h : c ≠ '\n') :
    findSplit (c :: t) = (findSplit t).map (fun p => (c :: p.1, p.2)) := by
  rw [findSplit, if_neg]
  intro heq
  rw [List.take_succ_cons] at heq
  injection heq with h1 _
  exact h h1

theorem findSplit_through (l : List Char) (h : '\n' ∉ l) (s : List Char) :
    findSplit (l ++ s) = (findSplit s).map (fun p => (l ++ p.1, p.2)) := by
  induction l with
  | nil =>
    cases hfs : findSplit s <;> simp [hfs]
  | cons c t ih =>
    have hc : c ≠ '\n' := fun hh => h (by simp [hh])
    have ht : '\n' ∉ t := fun hh => h (by simp [hh])
    rw [List.cons_append, findSplit_cons_ne c _ hc, ih ht]
    cases hfs : findSplit s <;> simp [hfs]

theorem findSplit_sepJoin (ls : List (List Char)) (B : List Char)
    (h : ∀ l ∈ ls, goodLine l) :
    findSplit (sepJoin ls ++ (markerL ++ B)) = some (sepJoin ls, B) := by
  induction ls with
  | nil => simpa [sepJoin] using findSplit_marker B
  | cons l rest ih =>
    obtain ⟨hne, hnl, hhd⟩ := h l (by simp)
    obtain ⟨c0, t0, rfl⟩ : ∃ c0 t0, l = c0 :: t0 := by
      cases l with
      | nil => exact absurd rfl hne
      | cons a b => exact ⟨a, b, rfl⟩
    have hc0 : c0 ≠ '-' := by
      intro hcc
      exact hhd (by simp [hcc])
    have hsep : sepJoin ((c0 :: t0) :: rest) = '\n' :: (c0 :: (t0 ++ sepJoin rest)) := by
      simp [sepJoin]
    rw [hsep]
    rw [show ('\n' :: (c0 :: (t0 ++ sepJoin rest))) ++ (markerL ++ B)
      = '\n' :: c0 :: (t0 ++ sepJoin rest ++ (markerL ++ B)) from by simp]
    rw [findSplit, if_neg ?hcond]
    case hcond =>
      intro heq
      rw [List.take_succ_cons, List.take_succ_cons] at heq
      rw [markerL] at heq
      have := (List.cons.injEq _ _ _ _).mp heq
      exact hc0 (List.cons.inj this.2).1
    have hnt : '\n' ∉ t0 := fun hh => hnl (by simp [hh])
    have hcnl : c0 ≠ '\n' := by
      intro hcc
      exact hnl (by simp [hcc])
    rw [findSplit_cons_ne c0 _ hcnl, List.append_assoc t0 (sepJoin rest),
      findSplit_through t0 hnt, ih (fun x hx => h x (by simp [hx]))]
    simp

theorem sepJoin_cons_eq (L : List (List Char)) (hL : L ≠ []) :
    sepJoin L = '\n' :: joinNL L := by
  cases L with
  | nil => exact absurd rfl hL
  | cons l t => simp [sepJoin, joinNL]

theorem joinNL_cons_ne (l : List Char) (rest : List (List Char)) (h : rest ≠ []) :
    joinNL (l :: rest) = l ++ '\n' :: joinNL rest := by
  rw [joinNL, sepJoin_cons_eq rest h]

theorem linesText_eq (L : List (List Char)) (hL : L ≠ []) :
    linesText L = joinNL L ++ ['\n'] := by
  induction L with
  | nil => exact absurd rfl hL
  | cons l rest ih =>
    cases rest with
    | nil => simp [linesText, joinNL, sepJoin]
    | cons r rr =>
      calc linesText (l :: r :: rr) = (l ++ ['\n']) ++ linesText (r :: rr) := by
            simp [linesText]
        _ = (l ++ ['\n']) ++ (joinNL (r :: rr) ++ ['\n']) := by rw [ih (by simp)]
        _ = joinNL (l :: r :: rr) ++ ['\n'] := by
            rw [joinNL_cons_ne l (r :: rr) (by simp)]
            simp

theorem splitNL_no_nl (l : List Char) (h : '\n' ∉ l) : splitNL l = [l] := by
  induction l with
  | nil => rfl
  | cons c t ih =>
    have hc : ¬(c = '\n') := fun hh => h (by simp [hh])
    have ht : '\n' ∉ t := fun hh => h (by simp [hh])
    rw [splitNL, if_neg hc, ih ht]

theorem splitNL_append (l s : List Char) (h : '\n' ∉ l) :
    splitNL (l ++ '\n' :: s) = l :: splitNL s := by
  induction l with
  | nil =>
    rw [List.nil_append, splitNL, if_pos rfl]
  | cons c t ih =>
    have hc : ¬(c = '\n') := fun hh => h (by simp [hh])
    have ht : '\n' ∉ t := fun hh => h (by simp [hh])
    rw [List.cons_append, splitNL, if_neg hc, ih ht]

theorem splitNL_joinNL (L : List (List Char)) (hL : L ≠ [])
    (h : ∀ l ∈ L, '\n' ∉ l) : splitNL (joinNL L) = L := by
  induction L with
  | nil => exact absurd rfl hL
  | cons l rest ih =>
    cases rest with
    | nil => simpa [joinNL, sepJoin] using splitNL_no_nl l (h l (by simp))
    | cons r rr =>
      rw [joinNL_cons_ne l (r :: rr) (by simp), splitNL_append l _ (h l (by simp)),
        ih (by simp) (fun x hx => h x (by simp [hx]))]

theorem splitKV_kvLine (key v : List Char) (h : ':' ∉ key) :
    splitKV (kvLine key v) = some (key, v) := by
  unfold kvLine
  induction key with
  | nil =>
    rw [List.nil_append, splitKV, if_pos ⟨rfl, by simp⟩]
    simp
  | cons c t ih =>
    have hc : c ≠ ':' := fun hh => h (by simp [hh])
    have ht : ':' ∉ t := fun hh => h (by simp [hh])
    rw [List.cons_append, splitKV, if_neg (fun hand => hc hand.1), ih ht]
    simp

/-! ## Marshal/unmarshal round trip -/

theorem except_bind_ok {α β : Type} (a : α) (f : α → Except String β) :
    (Except.ok a >>= f) = f a := rfl

theorem decodeLine_kv (aux : MetadataYAML) (key v : List Char)
    (hk : ':' ∉ key) (hne : key ≠ []) :
    decodeLine aux (kvLine key v) = .ok (applyKV aux key v) := by
  unfold decodeLine
  rw [splitKV_kvLine key v hk]
  simp [hne]

theorem foldlM_decode_optLine (cond : Bool) (key v : List Char) (hk : ':' ∉ key)
    (hne : key ≠ []) (aux : MetadataYAML) (l2 : List (List Char)) :
    (optLine cond key v ++ l2).foldlM decodeLine aux
      = l2.foldlM decodeLine (if cond then applyKV aux key v else aux) := by
  cases cond with
  | false => simp [optLine]
  | true =>
    simp only [optLine, if_pos, List.cons_append, List.nil_append, List.foldlM_cons,
      decodeLine_kv aux key v hk hne, except_bind_ok, if_true]

theorem timeEncode_ne_null (t : Nat) : timeEncode t ≠ "null".data := by
  intro heq
  have := natToDec_allDigits t
  rw [timeEncode] at heq
  rw [heq] at this
  exact absurd this (by decide)

theorem string_data_ne (s u : String) (h : s ≠ u) : s.data ≠ u.data :=
  fun heq => h (by cases s; cases u; exact congrArg String.mk heq)

theorem applyKV_provider (aux : MetadataYAML) (v : List Char) :
    applyKV aux ['p', 'r', 'o', 'v', 'i', 'd', 'e', 'r'] v = { aux with provider := ⟨v⟩ } := rfl

theorem applyKV_model (aux : MetadataYAML) (v : List Char) :
    applyKV aux ['m', 'o', 'd', 'e', 'l'] v = { aux with model := ⟨v⟩ } := rfl

theorem applyKV_duration (aux : MetadataYAML) (v : List Char) :
    applyKV aux ['d', 'u', 'r', 'a', 't', 'i', 'o', 'n'] v = { aux with duration := ⟨v⟩ } := rfl

theorem applyKV_input (aux : MetadataYAML) (v : List Char) :
    applyKV aux ['i', 'n', 'p', 'u', 't'] v = { aux with input := ⟨v⟩ } := rfl

theorem applyKV_output (aux : MetadataYAML) (v : List Char) :
    applyKV aux ['o', 'u', 't', 'p', 'u', 't'] v = { aux with output := ⟨v⟩ } := rfl

theorem applyKV_executedAt (aux : MetadataYAML) (v : List Char) :
    applyKV aux ['e', 'x', 'e', 'c', 'u', 't', 'e', 'd', '_', 'a', 't'] v
      = { aux with executedAt := if v = "null".data then none else some ⟨v⟩ } := rfl

theorem applyKV_rating (aux : MetadataYAML) (v : List Char) :
    applyKV aux ['r', 'a', 't', 'i', 'n', 'g'] v
      = { aux with rating := if v = "null".data then none else some ⟨v⟩ } := rfl

theorem applyKV_ratedAt (aux : MetadataYAML) (v : List Char) :
    applyKV aux ['r', 'a', 't', 'e', 'd', '_', 'a', 't'] v
      = { aux with ratedAt := if v = "null".data then none else some ⟨v⟩ } := rfl

theorem yamlIte_provider (c : Prop) [Decidable c] (a b : MetadataYAML) :
    (if c then a else b).provider = if c then a.provider else b.provider :=
  apply_ite MetadataYAML.provider c a b

theorem yamlIte_model (c : Prop) [Decidable c] (a b : MetadataYAML) :
    (if c then a else b).model = if c then a.model else b.model :=
  apply_ite MetadataYAML.model c a b

theorem yamlIte_duration (c : Prop) [Decidable c] (a b : MetadataYAML) :
    (if c then a else b).duration = if c then a.duration else b.duration :=
  apply_ite MetadataYAML.duration c a b

theorem yamlIte_input (c : Prop) [Decidable c] (a b : MetadataYAML) :
    (if c then a else b).input = if c then a.input else b.input :=
  apply_ite MetadataYAML.input c a b

theorem yamlIte_output (c : Prop) [Decidable c] (a b : MetadataYAML) :
    (if c then a else b).output = if c then a.output else b.output :=
  apply_ite MetadataYAML.output c a b

theorem yamlIte_executedAt (c : Prop) [Decidable c] (a b : MetadataYAML) :
    (if c then a else b).executedAt = if c then a.executedAt else b.executedAt :=
  apply_ite MetadataYAML.executedAt c a b

theorem yamlIte_rating (c : Prop) [Decidable c] (a b : MetadataYAML) :
    (if c then a else b).rating = if c then a.rating else b.rating :=
  apply_ite MetadataYAML.rating c a b

theorem yamlIte_ratedAt (c : Prop) [Decidable c] (a b : MetadataYAML) :
    (if c then a else b).ratedAt = if c then a.ratedAt else b.ratedAt :=
  apply_ite MetadataYAML.ratedAt c a b

theorem rating_decode_roundtrip (r : Option String) (hr : ∀ v, r = some v → v ≠ "null") :
    (if nullable (r.map String.data) = "null".data then none
      else some (⟨nullable (r.map String.data)⟩ : String)) = r := by
  cases r with
  | none => simp [nullable]
  | some rv =>
    have hne := string_data_ne rv "null" (hr rv rfl)
    simp only [Option.map_some', nullable, if_neg hne]

theorem ratedAt_decode_roundtrip (r : Option Nat) :
    (if nullable (r.map timeEncode) = "null".data then none
      else some (⟨nullable (r.map timeEncode)⟩ : String))
        = r.map (fun t => (⟨timeEncode t⟩ : String)) := by
  cases r with
  | none => simp [nullable]
  | some rt =>
    simp only [Option.map_some', nullable, if_neg (timeEncode_ne_null rt)]

theorem decodeLines_yamlLines (m : Metadata)
    (hr : ∀ v, m.rating = some v → v ≠ "null") :
    decodeLines (yamlLines m) = .ok (auxOf m) := by
  unfold decodeLines yamlLines
  simp only [List.append_assoc]
  rw [foldlM_decode_optLine _ _ _ (by decide) (by decide),
    foldlM_decode_optLine _ _ _ (by decide) (by decide),
    foldlM_decode_optLine _ _ _ (by decide) (by decide),
    foldlM_decode_optLine _ _ _ (by decide) (by decide),
    foldlM_decode_optLine _ _ _ (by decide) (by decide),
    foldlM_decode_optLine _ _ _ (by decide) (by decide),
    List.foldlM_cons, decodeLine_kv _ _ _ (by decide) (by decide), except_bind_ok,
    List.foldlM_cons, decodeLine_kv _ _ _ (by decide) (by decide), except_bind_ok,
    List.foldlM_nil]
  refine congrArg Except.ok ?_
  simp only [applyKV_provider, applyKV_model, applyKV_duration, applyKV_input,
    applyKV_output, applyKV_executedAt, applyKV_rating, applyKV_ratedAt]
  simp only [yamlIte_provider, yamlIte_model, yamlIte_duration, yamlIte_input,
    yamlIte_output, yamlIte_executedAt, yamlIte_rating, yamlIte_ratedAt, ite_self]
  unfold auxOf
  simp only [MetadataYAML.mk.injEq]
  refine ⟨?_, ?_, ?_, ?_, ?_, ?_, ?_, ?_⟩
  · by_cases h : m.provider = "" <;> simp [h]
  · by_cases h : m.model = "" <;> simp [h]
  · by_cases h : m.duration > 0 <;> simp [h]
  · by_cases h : m.input > 0 <;> simp [h]
  · by_cases h : m.output > 0 <;> simp [h]
  · by_cases h : m.executedAt = 0
    · simp [h]
    · simp [h]
      exact timeEncode_ne_null m.executedAt
  · exact rating_decode_roundtrip m.rating hr
  · exact ratedAt_decode_roundtrip m.ratedAt

theorem decodeDur_auxOf (m : Metadata) :
    decodeDur (auxOf m).duration = .ok (if 0 < m.duration then reparseDur m.duration else 0) := by
  by_cases hd : m.duration > 0
  · have hfield : (auxOf m).duration = ⟨formatDuration m.duration⟩ := by simp [auxOf, hd]
    have hne : (⟨formatDuration m.duration⟩ : String) ≠ "" := by
      intro heq
      exact formatDuration_ne_nil m.duration (by
        have := congrArg String.data heq
        simpa using this)
    rw [decodeDur, hfield, if_neg hne, if_pos hd]
    exact parseGoDuration_formatDuration m.duration hd
  · have hfield : (auxOf m).duration = "" := by simp [auxOf, hd]
    rw [decodeDur, hfield, if_pos rfl, if_neg hd]

theorem decodeTime?_auxOf (m : Metadata) : decodeTime? (auxOf m).executedAt = .ok m.executedAt := by
  by_cases hex : m.executedAt = 0
  · have hfield : (auxOf m).executedAt = none := by simp [auxOf, hex]
    rw [hfield, hex]
    rfl
  · have hfield : (auxOf m).executedAt = some ⟨timeEncode m.executedAt⟩ := by simp [auxOf, hex]
    rw [hfield]
    exact timeDecode_timeEncode m.executedAt

theorem decodeTimeOpt_auxOf (m : Metadata) : decodeTimeOpt (auxOf m).ratedAt = .ok m.ratedAt := by
  cases hra : m.ratedAt with
  | none =>
    have hfield : (auxOf m).ratedAt = none := by simp [auxOf, hra]
    rw [hfield]
    rfl
  | some rt =>
    have hfield : (auxOf m).ratedAt = some ⟨timeEncode rt⟩ := by simp [auxOf, hra]
    rw [hfield]
    show (timeDecode (timeEncode rt)).map some = Except.ok (some rt)
    rw [timeDecode_timeEncode rt]
    rfl

theorem parseTokens_field (i : Int) :
    parseTokens ((if i > 0 then (⟨intToDec i ++ ['t']⟩ : String) else "").data)
      = reparseTok i := by
  by_cases h : i > 0
  · rw [if_pos h]
    exact parseTokens_intToDec i h
  · rw [if_neg h]
    show parseTokens [] = reparseTok i
    rw [reparseTok, if_neg (by tauto)]
    rfl

theorem finalizeMeta_auxOf (m : Metadata) : finalizeMeta (auxOf m) = .ok (reparse m) := by
  rw [finalizeMeta, decodeDur_auxOf, decodeTime?_auxOf, decodeTimeOpt_auxOf]
  show Except.ok _ = _
  refine congrArg Except.ok ?_
  unfold reparse
  simp only [auxOf]
  rw [parseTokens_field m.input, parseTokens_field m.output]

theorem yamlUnmarshal_yamlLines (m : Metadata)
    (hr : ∀ v, m.rating = some v → v ≠ "null")
    (hnl : ∀ l ∈ yamlLines m, '\n' ∉ l) :
    yamlUnmarshal (joinNL (yamlLines m)) = .ok (reparse m) := by
  rw [yamlUnmarshal, splitNL_joinNL (yamlLines m) (by simp [yamlLines]) hnl,
    decodeLines_yamlLines m hr]
  exact finalizeMeta_auxOf m

theorem data_mk (l : List Char) : (String.mk l).data = l := rfl

theorem trimLeftNL_cons_nl (x : List Char) : trimLeftNL ('\n' :: x) = trimLeftNL x := by
  simp [trimLeftNL]

theorem trimLeftNL_idem (x : List Char) : trimLeftNL (trimLeftNL x) = trimLeftNL x := by
  induction x with
  | nil => rfl
  | cons c t ih =>
    by_cases hc : c = '\n'
    · subst hc
      rw [trimLeftNL_cons_nl, ih]
    · rw [show trimLeftNL (c :: t) = c :: t from by simp [trimLeftNL, hc],
        show trimLeftNL (c :: t) = c :: t from by simp [trimLeftNL, hc]]

theorem mem_optLine (l : List Char) (c : Bool) (key v : List Char)
    (h : l ∈ optLine c key v) : l = kvLine key v := by
  unfold optLine at h
  split at h
  · simpa using h
  · simp at h

theorem goodLine_kv (key v : List Char) (hk : key ≠ []) (hkh : key.head? ≠ some '-')
    (hknl : '\n' ∉ key) (hvnl : '\n' ∉ v) : goodLine (kvLine key v) := by
  cases key with
  | nil => exact absurd rfl hk
  | cons k0 kt =>
    refine ⟨by simp [kvLine], ?_, ?_⟩
    · intro hmem
      unfold kvLine at hmem
      rcases List.mem_append.mp hmem with h | h
      · exact hknl h
      · rcases List.mem_cons.mp h with h | h
        · exact absurd h (by decide)
        · rcases List.mem_cons.mp h with h | h
          · exact absurd h (by decide)
          · exact hvnl h
    · simpa [kvLine] using hkh

theorem plainStr_noNL (s : String) (h : plainStr s = true) : '\n' ∉ s.data := by
  intro hmem
  simp only [plainStr, Bool.and_eq_true, List.all_eq_true] at h
  have := h.1.1.1.2 '\n' hmem
  exact absurd this (by decide)

theorem plainStr_ne_null (s : String) (h : plainStr s = true) : s ≠ "null" := by
  simp only [plainStr, Bool.and_eq_true, bne_iff_ne] at h
  exact h.1.1.2

theorem plainOrEmpty_noNL (s : String) (h : plainOrEmpty s = true) : '\n' ∉ s.data := by
  simp only [plainOrEmpty, Bool.or_eq_true, beq_iff_eq] at h
  rcases h with h | h
  · subst h
    simp
  · exact plainStr_noNL s h

theorem yamlLines_good (m : Metadata)
    (hp : '\n' ∉ m.provider.data) (hm : '\n' ∉ m.model.data)
    (hrv : ∀ v, m.rating = some v → '\n' ∉ v.data) :
    ∀ l ∈ yamlLines m, goodLine l := by
  intro l hl
  unfold yamlLines at hl
  have hnlT : ('\n' : Char) ∉ (['t'] : List Char) := by decide
  rcases List.mem_append.mp hl with h6 | hfix
  · rcases List.mem_append.mp h6 with h5 | hEx
    · rcases List.mem_append.mp h5 with h4 | hOut
      · rcases List.mem_append.mp h4 with h3 | hIn
        · rcases List.mem_append.mp h3 with h2 | hDur
          · rcases List.mem_append.mp h2 with h1 | hMod
            · rw [mem_optLine _ _ _ _ h1]
              exact goodLine_kv _ _ (by decide) (by decide) (by decide) hp
            · rw [mem_optLine _ _ _ _ hMod]
              exact goodLine_kv _ _ (by decide) (by decide) (by decide) hm
          · rw [mem_optLine _ _ _ _ hDur]
            exact goodLine_kv _ _ (by decide) (by decide) (by decide)
              (formatDuration_noNL m.duration)
        · rw [mem_optLine _ _ _ _ hIn]
          refine goodLine_kv _ _ (by decide) (by decide) (by decide) ?_
          intro hmem
          rcases List.mem_append.mp hmem with h | h
          · exact noNL_intToDec _ h
          · exact hnlT h
      · rw [mem_optLine _ _ _ _ hOut]
        refine goodLine_kv _ _ (by decide) (by decide) (by decide) ?_
        intro hmem
        rcases List.mem_append.mp hmem with h | h
        · exact noNL_intToDec _ h
        · exact hnlT h
    · rw [mem_optLine _ _ _ _ hEx]
      exact goodLine_kv _ _ (by decide) (by decide) (by decide) (noNL_natToDec _)
  · rcases List.mem_cons.mp hfix with h | h
    · subst h
      refine goodLine_kv _ _ (by decide) (by decide) (by decide) ?_
      cases hr : m.rating with
      | none => simp [nullable, hr]
      | some rv =>
        simp only [nullable, hr, Option.map_some']
        exact hrv rv hr
    · rcases List.mem_cons.mp h with h | h
      · subst h
        refine goodLine_kv _ _ (by decide) (by decide) (by decide) ?_
        cases hr : m.ratedAt with
        | none => simp [nullable, hr]
        | some rt =>
          simp only [nullable, hr, Option.map_some']
          exact noNL_natToDec rt
      · simp at h

theorem frontMatterSplit_format (L : List (List Char)) (c : List Char)
    (hL : L ≠ []) (h : ∀ l ∈ L, goodLine l) :
    frontMatterSplit ("---\n".data ++ (linesText L ++ ("---\n\n".data ++ c)))
      = some (joinNL L, '\n' :: c) := by
  obtain ⟨l0, rest, rfl⟩ : ∃ l0 rest, L = l0 :: rest := by
    cases L with
    | nil => exact absurd rfl hL
    | cons a b => exact ⟨a, b, rfl⟩
  obtain ⟨hne, hnl, hhd⟩ := h l0 (by simp)
  obtain ⟨c0, t0, rfl⟩ : ∃ c0 t0, l0 = c0 :: t0 := by
    cases l0 with
    | nil => exact absurd rfl hne
    | cons a b => exact ⟨a, b, rfl⟩
  have hnt : '\n' ∉ t0 := fun hh => hnl (by simp [hh])
  have hshape : ("---\n".data : List Char) ++
      (linesText ((c0 :: t0) :: rest) ++ (("---\n\n".data : List Char) ++ c))
        = '-' :: '-' :: '-' :: '\n' ::
          (c0 :: (t0 ++ (sepJoin rest ++ (markerL ++ ('\n' :: c))))) := by
    rw [linesText_eq _ (by simp)]
    rw [show (("---\n".data : List Char)) = ['-', '-', '-', '\n'] from rfl,
      show (("---\n\n".data : List Char)) = ['-', '-', '-', '\n', '\n'] from rfl]
    simp [joinNL, markerL]
  rw [hshape, frontMatterSplit]
  rw [if_pos (by rfl)]
  show (findSplit (t0 ++ (sepJoin rest ++ (markerL ++ ('\n' :: c))))).map
      (fun p => (c0 :: p.1, p.2)) = _
  rw [findSplit_through t0 hnt, findSplit_sepJoin rest _ (fun x hx => h x (by simp [hx]))]
  simp [joinNL]

/-- The central composition law: parsing the formatted output of a
non-empty metadata value with newline-free string fields succeeds and
reproduces the metadata up to the lossy numeric re-encodings
(`reparse`), with the content's leading newlines trimmed. -/
theorem parseContent_format_general (m : Metadata) (c : String)
    (hne : m.IsEmpty = false)
    (hp : '\n' ∉ m.provider.data) (hm : '\n' ∉ m.model.data)
    (hrv : ∀ v, m.rating = some v → '\n' ∉ v.data)
    (hrnull : ∀ v, m.rating = some v → v ≠ "null") :
    ParseContent (Format (some m) c) = .ok (reparse m, ⟨trimLeftNL c.data⟩) := by
  have hgood := yamlLines_good m hp hm hrv
  have hnlLines : ∀ l ∈ yamlLines m, '\n' ∉ l := fun l hl => (hgood l hl).2.1
  have hLne : yamlLines m ≠ [] := by simp [yamlLines]
  have hfmt : Format (some m) c =
      (⟨"---\n".data ++ yamlMarshal m ++ "---\n\n".data ++ trimLeftNL c.data⟩ : String) := by
    unfold Format
    simp only [hne, Bool.false_eq_true, if_false]
  rw [hfmt]
  unfold ParseContent
  rw [data_mk]
  rw [show ("---\n".data ++ yamlMarshal m ++ "---\n\n".data ++ trimLeftNL c.data)
      = ("---\n".data ++ (linesText (yamlLines m) ++
          ("---\n\n".data ++ trimLeftNL c.data))) from by
    simp [yamlMarshal, List.append_assoc]]
  rw [frontMatterSplit_format (yamlLines m) (trimLeftNL c.data) hLne hgood]
  show (match yamlUnmarshal (joinNL (yamlLines m)) with
    | .error _ => _
    | .ok mm => Except.ok (mm, (⟨trimLeftNL ('\n' :: trimLeftNL c.data)⟩ : String))) = _
  rw [yamlUnmarshal_yamlLines m hrnull hnlLines]
  rw [trimLeftNL_cons_nl, trimLeftNL_idem]

theorem reparseTok_id (i : Int) (h0 : 0 ≤ i) (hm : i ≤ (int64Max : Int)) :
    reparseTok i = i := by
  unfold reparseTok
  split
  · rfl
  · next hcond =>
    simp only [not_and, not_le] at hcond
    omega

theorem reparseDur_id (d : Int)
    (h : 0 < d ∧ d % 1000000 = 0 ∧ d ≤ (int64Max : Int) ∧
      (d < 1000000000 ∨ d % 10000000 = 0)) : reparseDur d = d := by
  obtain ⟨hpos, hmod, hmax, hc⟩ := h
  have hdvd : (1000000 : Int) ∣ d := Int.dvd_of_emod_eq_zero hmod
  have htd : Int.tdiv d 1000000 = d / 1000000 := Int.tdiv_eq_ediv_of_dvd hdvd
  have hms : d / 1000000 * 1000000 = d := Int.ediv_mul_cancel hdvd
  show (if durMs d < 1000 then durMs d * 1000000
    else (((durMs d).toNat + 5) / 10 : Nat) * 10000000) = d
  rw [durMs, htd]
  by_cases hlt : d / 1000000 < 1000
  · rw [if_pos hlt]
    exact hms
  · rw [if_neg hlt]
    have hd7 : d % 10000000 = 0 := by
      rcases hc with h | h
      · omega
      · exact h
    obtain ⟨k, hk⟩ := Int.dvd_of_emod_eq_zero hd7
    omega

theorem reparse_eq_of_canonical (m : Metadata) (h : Canonical m) : reparse m = m := by
  obtain ⟨p, mo, d, i, o, e, r, ra⟩ := m
  obtain ⟨hp, hmo, hd, hi0, hi1, ho0, ho1, hr, hemp⟩ := h
  simp only [reparse, Metadata.mk.injEq, and_true, true_and]
  refine ⟨?_, reparseTok_id i hi0 hi1, reparseTok_id o ho0 ho1⟩
  rcases hd with hd | hd
  · simp only at hd
    simp [hd]
  · rw [if_pos hd.1, reparseDur_id d hd]

/-! ## C10 — ParseContent never returns an error -/

/-- **C10.** For every input string whatsoever, `ParseContent` returns a nil
error: a missing front-matter block, or one whose YAML fails to unmarshal,
degrades to empty metadata with the content preserved, so the only error
`Parse` can return comes from reading the file itself. -/
theorem parseContent_never_errors (s : String) : ∃ pr, ParseContent s = Except.ok pr := by
  unfold ParseContent
  split
  · exact ⟨_, rfl⟩
  · split
    · exact ⟨_, rfl⟩
    · exact ⟨_, rfl⟩

/-- Witness for C10 at a concrete malformed input. -/
theorem parseContent_never_errors_witness :
    ∃ pr, ParseContent "---\n: invalid yaml\n---\n\nContent" = Except.ok pr :=
  parseContent_never_errors "---\n: invalid yaml\n---\n\nContent"

/-! ## C6 — alias expansion is transparent to provider routing -/

/-- **C6.** For an alias entry `a → m` (the target itself not an alias key,
per the data model's single-hop invariant), `ResolveModel a` and
`ResolveModel m` return the same provider name. -/
theorem resolveModel_alias_transparent (r : Router) (a m : String)
    (ha : r.aliases a = some m) (hm : r.aliases m = none) :
    (r.ResolveModel a).2 = (r.ResolveModel m).2 := by
  simp [Router.ResolveModel, Router.resolveAlias, ha, hm]

/-- Witness for C6. -/
theorem resolveModel_alias_transparent_witness :
    (c6router.ResolveModel "fast").2 = (c6router.ResolveModel "gpt-4o").2 :=
  resolveModel_alias_transparent c6router "fast" "gpt-4o" rfl rfl

/-! ## C8 — Format on empty metadata -/

/-- **C8 counterexample.** `Format` on empty (and on nil) metadata does not
emit the content unchanged: leading newlines are trimmed. -/
theorem format_empty_counterexample :
    Format (some {}) "\nx" ≠ "\nx" ∧ Format none "\nx" ≠ "\nx" := by decide

/-- **C8 (amended).** `Format` on an empty or nil metadata value emits
exactly the content with its leading newlines trimmed — in particular it
never adds a front-matter block, and content without leading newlines is
unchanged. -/
theorem format_empty_amended (meta : Option Metadata) (c : String)
    (h : ∀ m, meta = some m → m.IsEmpty = true) :
    Format meta c = ⟨trimLeftNL c.data⟩ := by
  cases meta with
  | none => rfl
  | some m => simp [Format, h m rfl]

/-- Witness for the amended C8. -/
theorem format_empty_amended_witness : Format (some {}) "abc" = "abc" :=
  (format_empty_amended (some {}) "abc" (fun m hm => by cases hm; rfl)).trans (by decide)

/-! ## C2 — the Continue option -/

/-- **C2 (amended).** The `Continue` option is accepted but not honored:
`Execute` behaves identically whether it is set or not (it never skips a
task and always rewrites the output file). -/
theorem execute_ignores_continue (p : Plan) (dir : String)
    (chat : ChatRequest → Except String ChatResponse) (dr : Bool) (par : Int)
    (c₁ c₂ : Bool) (prog : Bool) (now : Nat) (st : Store) :
    Execute p dir chat ⟨dr, par, c₁, prog⟩ now st
      = Execute p dir chat ⟨dr, par, c₂, prog⟩ now st := rfl

/-- Witness for the amended C2 at concrete distinct flag values. -/
theorem execute_ignores_continue_witness :
    Execute {} "A" (fun _ => Except.error "e") ⟨false, 1, true, false⟩ 0 (fun _ => none)
      = Execute {} "A" (fun _ => Except.error "e") ⟨false, 1, false, false⟩ 0 (fun _ => none) :=
  execute_ignores_continue {} "A" (fun _ => Except.error "e") false 1 true false false 0 (fun _ => none)

set_option maxRecDepth 100000 in
/-- **C2 counterexample.** With `Continue` set and the task's output file
already present, `Execute` still executes the task (one result is
produced, so the chat call happened) and rewrites the existing output
file. -/
theorem execute_continue_counterexample :
    c2outcome.2 = 1 ∧ c2outcome.1 ≠ some "old" := by decide

/-! ## C1 — the Format/ParseContent round trip -/

set_option maxRecDepth 100000 in
/-- **C1 counterexample.** The claimed law `Parse(Format(m, c)) = (m, c)`
for every `m` and every `c` not beginning with `---\n` fails three ways:
leading newlines of the content are trimmed; a sub-millisecond duration
is lost by `formatDuration`; and a metadata value carrying only `ratedAt`
is treated as empty by `IsEmpty`, so its front matter is never written. -/
theorem parse_format_counterexample :
    ParseContent (Format (some {}) "\nx") ≠ .ok (({} : Metadata), "\nx") ∧
    ParseContent (Format (some { duration := 1 }) "x")
      ≠ .ok (({ duration := 1 } : Metadata), "x") ∧
    ParseContent (Format (some { ratedAt := some 5 }) "x")
      ≠ .ok (({ ratedAt := some 5 } : Metadata), "x") := by decide

/-- **C1 (amended).** The round trip is exact on canonically-encodable
metadata (plain string fields, a duration that is a whole number of
milliseconds — whole centiseconds from one second up — and in-range token
counts, with `ratedAt` unset when the rest is empty) and content that
neither begins with `---\n` nor with a newline. -/
theorem parse_format_roundtrip (m : Metadata) (c : String)
    (hcan : Canonical m)
    (hpre : c.data.take 4 ≠ "---\n".data)
    (hlead : c.data.head? ≠ some '\n') :
    ParseContent (Format (some m) c) = .ok (m, c) := by
  obtain ⟨hp, hmo, hd, hi0, hi1, ho0, ho1, hr, hemp⟩ := hcan
  by_cases hne : m.IsEmpty = true
  · have hra := hemp hne
    have hm0 : m = {} := by
      obtain ⟨p, mo, d, i, o, e, r, ra⟩ := m
      simp only [Metadata.IsEmpty, Bool.and_eq_true, beq_iff_eq] at hne
      obtain ⟨⟨⟨⟨⟨⟨h1, h2⟩, h3⟩, h4⟩, h5⟩, h6⟩, h7⟩ := hne
      simp only at hra
      simp_all
    subst hm0
    have hfmt : Format (some ({} : Metadata)) c = ⟨trimLeftNL c.data⟩ := rfl
    rw [hfmt, trimLeftNL_of_head c.data hlead]
    unfold ParseContent
    rw [data_mk, frontMatterSplit_none c.data hpre]
    rw [trimLeftNL_of_head c.data hlead]
  · have hne' : m.IsEmpty = false := by
      revert hne
      cases m.IsEmpty <;> simp
    have h := parseContent_format_general m c hne'
      (plainOrEmpty_noNL m.provider hp) (plainOrEmpty_noNL m.model hmo)
      (fun v hv => plainStr_noNL v (hr v hv))
      (fun v hv => plainStr_ne_null v (hr v hv))
    rw [reparse_eq_of_canonical m ⟨hp, hmo, hd, hi0, hi1, ho0, ho1, hr, hemp⟩] at h
    rw [h, trimLeftNL_of_head c.data hlead]

set_option maxRecDepth 10000 in
/-- Witness for the amended C1 on a fully-populated metadata value. -/
theorem parse_format_roundtrip_witness :
    ParseContent (Format
        (some ⟨"p", "claude-sonnet-4", 1500000000, 100, 200, 17, some "good", some 5⟩)
        "# R")
      = .ok ((⟨"p", "claude-sonnet-4", 1500000000, 100, 200, 17, some "good", some 5⟩ :
          Metadata), "# R") :=
  parse_format_roundtrip _ _
    ⟨by decide, by decide, Or.inr (by decide), by decide, by decide, by decide, by decide,
      fun v hv => by simp at hv; subst hv; decide, by decide⟩
    (by decide) (by decide)

/-! ## C4 — a fresh write resets the rating fields -/

/-- **C4.** `ResponseWriter.Write` replaces the whole metadata block: the
file it writes parses to metadata with `rating = none` and `ratedAt`
unset, whatever rating a viewer had stored there before (the prior store
contents are arbitrary).  Stated for plain (yaml-safe) option strings and
a nonzero write instant. -/
theorem write_resets_rating (baseDir model queryID content : String) (opts : WriteOptions)
    (now : Nat) (st : Store) (hnow : 0 < now)
    (hp : plainOrEmpty opts.providerURL = true) (hm : plainOrEmpty opts.model = true) :
    ∃ md rest, ParseContent (writtenFile baseDir model queryID content opts now st)
      = Except.ok (md, rest) ∧ md.rating = none ∧ md.ratedAt = none := by
  have hz : (now == 0) = false := by
    simp only [beq_eq_false_iff_ne, ne_eq]
    omega
  have hne : (freshMeta opts now).IsEmpty = false := by
    simp [Metadata.IsEmpty, freshMeta, hz]
  have hwf : writtenFile baseDir model queryID content opts now st
      = Format (some (freshMeta opts now)) content := by
    unfold writtenFile ResponseWriterWrite
    simp [storeWrite]
  have h := parseContent_format_general (freshMeta opts now) content hne
    (plainOrEmpty_noNL opts.providerURL hp) (plainOrEmpty_noNL opts.model hm)
    (fun v hv => by simp [freshMeta] at hv) (fun v hv => by simp [freshMeta] at hv)
  rw [hwf, h]
  exact ⟨_, _, rfl, rfl, rfl⟩

/-- Witness for C4: a concrete write over a store that held a rated file. -/
theorem write_resets_rating_witness :
    ∃ md rest, ParseContent (writtenFile "A" "m" "q.md" "body" ⟨"p", "mm", 0, 0, 0⟩ 7
        (fun _ => some "---\nrating: good\n---\n\nold")) = Except.ok (md, rest) ∧
      md.rating = none ∧ md.ratedAt = none :=
  write_resets_rating "A" "m" "q.md" "body" ⟨"p", "mm", 0, 0, 0⟩ 7
    (fun _ => some "---\nrating: good\n---\n\nold") (by decide) (by decide) (by decide)

/-! ## C5 — the rate-limit grammar -/

theorem ParseRateLimit_eq_of_match (s : String) (hs : s ≠ "") (D U : List Char)
    (hm : rateLimitMatch? s.data = some (D, U)) :
    ParseRateLimit s = (match atoi? D with
      | none => .error "invalid rate limit value"
      | some v =>
        if v ≤ 0 then .error "rate limit value must be positive"
        else
          .ok (some
            { value := v,
              unit := if U = "rps".data then 1000000000
                else if U = "rpm".data then 60000000000 else 3600000000000 })) := by
  unfold ParseRateLimit
  rw [if_neg hs, hm]

/-- **C5 counterexample.** The empty string does not match the grammar yet
parses without error (it means "unlimited"), and a grammar-matching string
whose value exceeds the 64-bit range is rejected by `Atoi` even though the
grammar accepts it. -/
theorem parse_rate_limit_counterexample :
    (specRateLimitGrammar "" = none ∧ ParseRateLimit "" = .ok none) ∧
    (specRateLimitGrammar "9999999999999999999rps" = some (9999999999999999999, "rps") ∧
      ParseRateLimit "9999999999999999999rps" = .error "invalid rate limit value") := by
  decide

/-- **C5 (amended).** Against the grammar `<positive-integer><rps|rpm|rph>`:
a matching string with an in-range value parses to that value and the
corresponding unit; a matching string with an out-of-range value errors; a
non-matching non-empty string errors; the empty string parses to
"unlimited" (`none`) without error. -/
theorem parse_rate_limit_amended (s : String) :
    ParseRateLimit "" = .ok none ∧
    (∀ v u, specRateLimitGrammar s = some (v, u) → v ≤ int64Max →
      ParseRateLimit s = .ok (some { value := (v : Int), unit := specUnitDur u })) ∧
    (∀ v u, specRateLimitGrammar s = some (v, u) → int64Max < v →
      ParseRateLimit s = .error "invalid rate limit value") ∧
    (specRateLimitGrammar s = none → s ≠ "" → ∃ e, ParseRateLimit s = .error e) := by
  refine ⟨rfl, ?_, ?_, ?_⟩
  · intro v u hg hle
    simp only [specRateLimitGrammar] at hg
    split at hg
    next hcond =>
      simp only [Option.some.injEq, Prod.mk.injEq] at hg
      obtain ⟨hv, hu⟩ := hg
      obtain ⟨hne, hall, hpos, hunits⟩ := hcond
      subst hv
      subst hu
      have hsne : s ≠ "" := by
        intro h
        subst h
        exact hne rfl
      have hmatch : rateLimitMatch? s.data
          = some (s.data.take (s.data.length - 3), s.data.drop (s.data.length - 3)) := by
        simp only [rateLimitMatch?]
        rw [if_pos ⟨hne, hall, hunits⟩]
      rw [ParseRateLimit_eq_of_match s hsne _ _ hmatch, atoi?_digits _ hne hall, if_pos hle]
      simp only []
      rw [if_neg (by omega)]
      rcases hunits with h | h | h <;> rw [h] <;> rfl
    next hcond => exact Option.noConfusion hg
  · intro v u hg hbig
    simp only [specRateLimitGrammar] at hg
    split at hg
    next hcond =>
      simp only [Option.some.injEq, Prod.mk.injEq] at hg
      obtain ⟨hv, hu⟩ := hg
      obtain ⟨hne, hall, hpos, hunits⟩ := hcond
      subst hv
      subst hu
      have hsne : s ≠ "" := by
        intro h
        subst h
        exact hne rfl
      have hmatch : rateLimitMatch? s.data
          = some (s.data.take (s.data.length - 3), s.data.drop (s.data.length - 3)) := by
        simp only [rateLimitMatch?]
        rw [if_pos ⟨hne, hall, hunits⟩]
      rw [ParseRateLimit_eq_of_match s hsne _ _ hmatch, atoi?_digits _ hne hall,
        if_neg (by omega)]
    next hcond => exact Option.noConfusion hg
  · intro hg hsne
    cases hm : rateLimitMatch? s.data with
    | none =>
      refine ⟨"invalid rate limit format " ++ s, ?_⟩
      unfold ParseRateLimit
      rw [if_neg hsne, hm]
    | some du =>
      obtain ⟨D, U⟩ := du
      have hm2 := hm
      simp only [rateLimitMatch?] at hm2
      split at hm2
      next hcond =>
        simp only [Option.some.injEq, Prod.mk.injEq] at hm2
        obtain ⟨hD, hU⟩ := hm2
        obtain ⟨hne, hall, hunits⟩ := hcond
        simp only [specRateLimitGrammar] at hg
        split at hg
        next hc => exact Option.noConfusion hg
        next hc =>
          have hz : parseDigits (s.data.take (s.data.length - 3)) = 0 := by
            by_contra hnz
            exact hc ⟨hne, hall, Nat.pos_of_ne_zero hnz, hunits⟩
          refine ⟨"rate limit value must be positive", ?_⟩
          subst hD
          rw [ParseRateLimit_eq_of_match s hsne _ U hm, atoi?_digits _ hne hall, hz,
            if_pos (Nat.zero_le _)]
          rfl
      next hcond => exact Option.noConfusion hm2

/-- Witness for the amended C5 on `10rpm`. -/
theorem parse_rate_limit_amended_witness :
    ParseRateLimit "10rpm" = .ok (some { value := 10, unit := 60000000000 }) :=
  (parse_rate_limit_amended "10rpm").2.1 10 "rpm" (by decide) (by decide)

/-! ## C7 — ResolveModel on a validated configuration -/

theorem validateProviders_nil_names (dp : String) :
    ∀ (ps : List Provider) (i : Nat) (seen : List String) (found : Bool),
      (validateProviders dp i seen found ps).2 = [] → ∀ p ∈ ps, p.name ≠ "" := by
  intro ps
  induction ps with
  | nil =>
    intro i seen found h q hq
    simp at hq
  | cons p rest ih =>
    intro i seen found h q hq
    by_cases hn : p.name = ""
    · exfalso
      simp [validateProviders, hn] at h
    · rcases List.mem_cons.mp hq with rfl | hq'
      · exact hn
      · simp only [validateProviders] at h
        rw [if_neg hn] at h
        simp only [List.append_eq_nil] at h
        exact ih _ _ _ h.2 q hq'

theorem validate_nil_dp (cfg : Config) (h : Config.Validate cfg = []) :
    cfg.defaultProvider ≠ "" := by
  intro hdp
  simp [Config.Validate, hdp] at h

theorem validate_nil_providers (cfg : Config) (h : Config.Validate cfg = []) :
    (validateProviders cfg.defaultProvider 0 [] false cfg.providers).2 = [] := by
  simp only [Config.Validate, List.append_eq_nil] at h
  exact h.1.2.1

theorem mapInsert_fold_inv (models : List String) (mm : String → Option String)
    (name : String) (hname : name ≠ "")
    (hmm : ∀ x v, mm x = some v → v ≠ "") :
    ∀ x v, (models.foldl (fun acc model => mapInsert acc model name) mm) x = some v →
      v ≠ "" := by
  induction models generalizing mm with
  | nil => exact hmm
  | cons m rest ih =>
    intro x v h
    refine ih (mapInsert mm m name) ?_ x v h
    intro y w hy
    unfold mapInsert at hy
    split at hy
    · simp only [Option.some.injEq] at hy
      rw [← hy]
      exact hname
    · exact hmm y w hy

theorem buildProviders_inv (env : String → String) (ps : List Provider) :
    ∀ (r0 : Router), (∀ p ∈ ps, p.name ≠ "") →
      (∀ x v, r0.modelMapping x = some v → v ≠ "") →
      ∀ r', buildProviders env ps r0 = .ok r' →
        r'.defaultProvider = r0.defaultProvider ∧
        ∀ x v, r'.modelMapping x = some v → v ≠ "" := by
  induction ps with
  | nil =>
    intro r0 hnames hmm r' h
    simp only [buildProviders, Except.ok.injEq] at h
    subst h
    exact ⟨rfl, hmm⟩
  | cons p rest ih =>
    intro r0 hnames hmm r' h
    simp only [buildProviders] at h
    split at h
    · exact absurd h (by simp)
    · split at h
      · exact absurd h (by simp)
      next r2 heq2 =>
        have hr2 : r2.modelMapping = r0.modelMapping ∧
            r2.defaultProvider = r0.defaultProvider := by
          split at heq2
          · split at heq2
            · exact absurd heq2 (by simp)
            · simp only [Except.ok.injEq] at heq2
              rw [← heq2]
              exact ⟨rfl, rfl⟩
            · simp only [Except.ok.injEq] at heq2
              rw [← heq2]
              exact ⟨rfl, rfl⟩
          · simp only [Except.ok.injEq] at heq2
            rw [← heq2]
            exact ⟨rfl, rfl⟩
        obtain ⟨hm2, hd2⟩ := hr2
        obtain ⟨hd, hm3⟩ := ih _ (fun q hq => hnames q (List.mem_cons_of_mem p hq))
          (mapInsert_fold_inv p.models r2.modelMapping p.name
            (hnames p (List.mem_cons_self p rest))
            (fun y w hy => hmm y w (hm2 ▸ hy))) r' h
        refine ⟨?_, hm3⟩
        rw [hd]
        exact hd2

/-- **C7.** On any configuration that passes validation, `ResolveModel`
returns a non-empty provider name for every input string: an unknown model
or alias falls back to the validated default provider.  (In the pure
embedding the absence of panics is inherent; the content of the claim is
the non-empty provider name.) -/
theorem resolveModel_nonempty (cfg : Config) (env : String → String) (s : String)
    (hv : Config.Validate cfg = []) :
    resolvedProviderName cfg env s ≠ some "" := by
  have hdp := validate_nil_dp cfg hv
  have hnames : ∀ p ∈ cfg.providers, p.name ≠ "" :=
    validateProviders_nil_names _ _ 0 [] false (validate_nil_providers cfg hv)
  unfold resolvedProviderName
  cases hr : NewRouter cfg env with
  | error e => simp
  | ok r =>
    obtain ⟨hdef, hmmv⟩ := buildProviders_inv env cfg.providers _ hnames
      (fun x v hx => Option.noConfusion hx) r hr
    intro hcontra
    simp only [Option.some.injEq] at hcontra
    have h2 : (r.ResolveModel s).2 = r.resolveProvider (r.resolveAlias s) := rfl
    rw [h2] at hcontra
    unfold Router.resolveProvider at hcontra
    cases hmx : r.modelMapping (r.resolveAlias s) with
    | some p =>
      rw [hmx] at hcontra
      exact hmmv _ _ hmx hcontra
    | none =>
      rw [hmx] at hcontra
      rw [hdef] at hcontra
      exact hdp hcontra

/-- Witness for C7: the concrete valid configuration routes an unknown
model to a non-empty provider name. -/
theorem resolveModel_nonempty_witness :
    resolvedProviderName c7cfg (fun _ => "") "zzz" ≠ some "" :=
  resolveModel_nonempty c7cfg (fun _ => "") "zzz" (by decide)

/-! ## C9 — progress events per task -/

theorem execQueries_events (env : ExecEnv) (hop : env.onProgress = true) (model : String) :
    ∀ (qs : List Query) (s : ExecutionSummary) (st : Store) (ev : List ProgressEvent),
      (execQueries env model qs s st ev).2.2.length = ev.length + 2 * qs.length ∧
      (execQueries env model qs s st ev).2.2.filterMap startProj
        = ev.filterMap startProj ++ qs.map (fun q => (model, q.id)) := by
  intro qs
  induction qs with
  | nil =>
    intro s st ev
    simp [execQueries]
  | cons q rest ih =>
    intro s st ev
    cases hx : executeOne env model q.id st with
    | error e =>
      simp only [execQueries, hx]
      rw [hop]
      simp only [emitIf, if_true]
      constructor
      · rw [(ih _ _ _).1]
        simp only [List.length_append, List.length_cons, List.length_nil]
        omega
      · rw [(ih _ _ _).2]
        simp [startProj, List.filterMap_append]
    | ok pr =>
      obtain ⟨r, st1⟩ := pr
      simp only [execQueries, hx]
      rw [hop]
      simp only [emitIf, if_true]
      constructor
      · rw [(ih _ _ _).1]
        simp only [List.length_append, List.length_cons, List.length_nil]
        omega
      · rw [(ih _ _ _).2]
        simp [startProj, List.filterMap_append]

theorem execModels_events (env : ExecEnv) (hop : env.onProgress = true) (queries : List Query) :
    ∀ (ms : List String) (s : ExecutionSummary) (st : Store) (ev : List ProgressEvent),
      (execModels env queries ms s st ev).2.2.length
        = ev.length + 2 * (ms.length * queries.length) ∧
      (execModels env queries ms s st ev).2.2.filterMap startProj
        = ev.filterMap startProj
          ++ (ms.map (fun m => queries.map (fun q => (m, q.id)))).flatten := by
  intro ms
  induction ms with
  | nil =>
    intro s st ev
    simp [execModels]
  | cons m rest ih =>
    intro s st ev
    simp only [execModels]
    obtain ⟨hl, hf⟩ := execQueries_events env hop m queries s st ev
    constructor
    · rw [(ih _ _ _).1, hl]
      simp only [List.length_cons]
      ring
    · rw [(ih _ _ _).2, hf]
      simp [List.append_assoc]

set_option maxRecDepth 100000 in
/-- **C9 counterexample.** A successful 1×1 run emits two events per task
(start then done), not three: no error event accompanies a success. -/
theorem execute_events_counterexample : c9eventCount = 2 ∧ c9eventCount ≠ 3 * 1 := by decide

/-- **C9 (amended).** With a callback installed, every task emits exactly
two progress notifications — a start and then one terminal event (done on
success, error on failure) — and the start events enumerate the task
matrix in models-outer, queries-inner order. -/
theorem execute_events (p : Plan) (dir : String)
    (chat : ChatRequest → Except String ChatResponse) (opts : Options) (now : Nat)
    (st : Store) (hm : p.assistant.llm.models ≠ []) (hq : p.queries ≠ [])
    (hop : opts.onProgress = true) :
    ∃ s st' ev, Execute p dir chat opts now st = .ok (s, st', ev) ∧
      ev.length = 2 * (p.assistant.llm.models.length * p.queries.length) ∧
      ev.filterMap startProj = crossTasks p := by
  unfold Execute
  rw [if_neg hm, if_neg hq]
  refine ⟨_, _, _, rfl, ?_, ?_⟩
  · rw [(execModels_events _ hop p.queries _ _ _ _).1]
    simp
  · rw [(execModels_events _ hop p.queries _ _ _ _).2]
    simp [crossTasks]

/-- Witness for the amended C9 on the concrete 1×1 run. -/
theorem execute_events_witness :
    ∃ s st' ev, Execute c9plan "A" c9chat { onProgress := true } 7 c9store
        = .ok (s, st', ev) ∧
      ev.length = 2 * (c9plan.assistant.llm.models.length * c9plan.queries.length) ∧
      ev.filterMap startProj = crossTasks c9plan :=
  execute_events c9plan "A" c9chat { onProgress := true } 7 c9store
    (by decide) (by decide) rfl

/-! ## C3 — partial failure of one task in a 2×2 plan -/

set_option maxRecDepth 100000 in
/-- **C3.** In the 2×2 plan, whichever single task's provider call fails
(and whatever the other three answers and the error text are), `Execute`
returns a nil top-level error and a summary with exactly 3 results, exactly
the one error tagged `model=<m> query=<q>: <err>`, and token totals summed
over only the three successes — execution never aborts on a per-task
error. -/
theorem execute_partial_failure (fail : Bool × Bool) (resp : Bool × Bool → ChatResponse)
    (emsg : String) :
    ∃ s st ev, Execute c3plan "A" (c3chat fail resp emsg) {} 0 c3store = .ok (s, st, ev) ∧
      s.results.length = 3 ∧
      s.errors = ["model=" ++ c3model fail.1 ++ " query=" ++ c3query fail.2 ++ ": " ++ emsg] ∧
      s.totalTokensPrompt
        = ((c3positions.filter (· ≠ fail)).map (fun pos => (resp pos).promptTokens)).sum ∧
      s.totalTokensOutput
        = ((c3positions.filter (· ≠ fail)).map (fun pos => (resp pos).outputTokens)).sum := by
  obtain ⟨f1, f2⟩ := fail
  cases f1 <;> cases f2
  · refine ⟨_, _, _, rfl, rfl, rfl, ?_, ?_⟩
    · show (0 + (resp (false, true)).promptTokens + (resp (true, false)).promptTokens
          + (resp (true, true)).promptTokens : Int) = _
      simp [c3positions]; omega
    · show (0 + (resp (false, true)).outputTokens + (resp (true, false)).outputTokens
          + (resp (true, true)).outputTokens : Int) = _
      simp [c3positions]; omega
  · refine ⟨_, _, _, rfl, rfl, rfl, ?_, ?_⟩
    · show (0 + (resp (false, false)).promptTokens + (resp (true, false)).promptTokens
          + (resp (true, true)).promptTokens : Int) = _
      simp [c3positions]; omega
    · show (0 + (resp (false, false)).outputTokens + (resp (true, false)).outputTokens
          + (resp (true, true)).outputTokens : Int) = _
      simp [c3positions]; omega
  · refine ⟨_, _, _, rfl, rfl, rfl, ?_, ?_⟩
    · show (0 + (resp (false, false)).promptTokens + (resp (false, true)).promptTokens
          + (resp (true, true)).promptTokens : Int) = _
      simp [c3positions]; omega
    · show (0 + (resp (false, false)).outputTokens + (resp (false, true)).outputTokens
          + (resp (true, true)).outputTokens : Int) = _
      simp [c3positions]; omega
  · refine ⟨_, _, _, rfl, rfl, rfl, ?_, ?_⟩
    · show (0 + (resp (false, false)).promptTokens + (resp (false, true)).promptTokens
          + (resp (true, false)).promptTokens : Int) = _
      simp [c3positions]; omega
    · show (0 + (resp (false, false)).outputTokens + (resp (false, true)).outputTokens
          + (resp (true, false)).outputTokens : Int) = _
      simp [c3positions]; omega

end Tuna
